import Mathlib

/-!
Verification development for the URDF-to-kinematic-tree compiler
(`src/multibody/parser/urdf.hpp`) and the joint-Jacobian accessor proxies
(`bindings/python/algorithm/expose-jacobian.cpp`).

Embedding conventions:
* Scalars are exact rationals (the C++ uses `double`; all branch decisions in
  the parser are exact comparisons, so exact arithmetic captures the control
  flow).  The single normalisation of an unaligned revolute axis produces
  irrational components, so the stored unaligned axis lives in `ℝ × ℝ × ℝ`.
* The recursive `parseTree` procedure mutates the URDF tree when collapsing a
  fixed joint (`child_link->setParent(link->getParent())`).  Because the
  recursion only ever reads `link->getParent()->parent_joint` (null test and
  name), this mutation is embedded by threading the parameter `grand`:
  the name of the (current, post-re-parenting) parent link's parent joint,
  `none` when that parent joint is null.  A fixed joint passes its own `grand`
  unchanged to the children (re-parenting); a materialised joint passes its
  own name.
* `assert(false && ...)` on the unsupported branches aborts the call in the
  C++ (debug) build; it is embedded as a fatal error, following §7 of the
  specification (all error kinds are fatal to the call).
* Fallible code returns `Except UrdfError`.
-/

namespace Pinocchio

/-- Scalar type of the embedding: exact rationals in place of IEEE doubles. -/
abbrev Scalar := ℚ

/-- A 3-vector with named components, mirroring `urdf::Vector3`. -/
structure Vec3 where
  x : Scalar
  y : Scalar
  z : Scalar
deriving DecidableEq

/-- A quaternion (w, x, y, z), mirroring `urdf::Rotation`. -/
structure Quat where
  w : Scalar
  x : Scalar
  y : Scalar
  z : Scalar
deriving DecidableEq

/-- 3×3 matrices over the scalar type. -/
abbrev Mat3 := Matrix (Fin 3) (Fin 3) Scalar

/-- Index-function form of a 3-vector, for matrix-vector arithmetic. -/
abbrev V3 := Fin 3 → Scalar

/-- View a named-component vector as an index function. -/
def Vec3.toV3 (v : Vec3) : V3 := ![v.x, v.y, v.z]

/-- Rotation matrix of a quaternion, the standard formula used by
`Eigen::Quaterniond::matrix()`; no normalisation is performed (§4.1 of the
spec: the caller supplies unit quaternions). -/
def quatToMatrix (q : Quat) : Mat3 :=
  Matrix.of
    ![![1 - 2*(q.y^2 + q.z^2), 2*(q.x*q.y - q.z*q.w), 2*(q.x*q.z + q.y*q.w)],
      ![2*(q.x*q.y + q.z*q.w), 1 - 2*(q.x^2 + q.z^2), 2*(q.y*q.z - q.x*q.w)],
      ![2*(q.x*q.z - q.y*q.w), 2*(q.y*q.z + q.x*q.w), 1 - 2*(q.x^2 + q.y^2)]]

/-- A rigid-body transform: rotation matrix and translation (`se3::SE3`). -/
structure SE3 where
  rot : Mat3
  trans : V3

/-- Identity transform (I, 0). -/
def SE3.id : SE3 := ⟨1, 0⟩

/-- Composition of rigid-body transforms:
`(R₁,t₁)·(R₂,t₂) = (R₁R₂, R₁t₂ + t₁)`. -/
def SE3.comp (a b : SE3) : SE3 := ⟨a.rot * b.rot, a.rot.mulVec b.trans + a.trans⟩

instance : One SE3 := ⟨SE3.id⟩

instance : Mul SE3 := ⟨SE3.comp⟩

/-- A spatial inertia: mass, centre-of-mass offset (lever) and 3×3 inertia
tensor, the parametrisation described in §3 of the spec (`se3::Inertia`, whose
source is not part of this slice). -/
structure Inertia where
  mass : Scalar
  lever : V3
  inertia : Mat3

/-- The zero spatial inertia (mass 0, zero lever, zero tensor), carried by the
universe pseudo-joint. -/
def Inertia.zero : Inertia := ⟨0, 0, 0⟩

/-- Modelled from the spec: §4.4 step 3 substitutes the "identity inertia
(mass = 0)" when a link has no inertial block (`se3::Inertia::Identity()` is
not part of this slice). -/
def Inertia.identity : Inertia := ⟨0, 0, 1⟩

/-- Modelled from the spec: transport of a spatial inertia to a new frame
("`M.act(Y)` semantics", §4.1; the `M·Y·Mᵀ` convention of §3): the mass is
unchanged, the lever is rotated and translated, the tensor is conjugated by
the rotation. -/
def SE3.act (m : SE3) (y : Inertia) : Inertia :=
  ⟨y.mass, m.rot.mulVec y.lever + m.trans, m.rot * y.inertia * m.rot.transpose⟩

/-- Modelled from the spec: "additive merge of two inertias expressed in a
common frame" (§2, §3): masses and first moments add (the lever is the
mass-weighted barycentre), the tensor parameter adds entrywise. -/
def Inertia.add (a b : Inertia) : Inertia :=
  ⟨a.mass + b.mass,
   if a.mass + b.mass = 0 then 0
   else (a.mass + b.mass)⁻¹ • (a.mass • a.lever + b.mass • b.lever),
   a.inertia + b.inertia⟩

/-! ### URDF input data model (§6 of the spec, `urdf_model` structures) -/

/-- A URDF pose: position plus quaternion, mirroring `urdf::Pose`. -/
structure UrdfPose where
  position : Vec3
  rotation : Quat
deriving DecidableEq

/-- A URDF inertial block, mirroring `urdf::Inertial`. -/
structure UrdfInertial where
  origin : UrdfPose
  mass : Scalar
  ixx : Scalar
  ixy : Scalar
  ixz : Scalar
  iyy : Scalar
  iyz : Scalar
  izz : Scalar
deriving DecidableEq

/-- URDF joint types recognised by the compiler; `OTHER` stands for every
member of the `urdf::Joint` type enumeration outside the recognised set
(PLANAR, FLOATING, UNKNOWN, ...), all of which reach the `default` branch. -/
inductive UrdfJointType where
  | REVOLUTE
  | CONTINUOUS
  | PRISMATIC
  | FIXED
  | OTHER
deriving DecidableEq

/-- A URDF limit block, mirroring `urdf::JointLimits`. -/
structure UrdfLimits where
  effort : Scalar
  velocity : Scalar
  lower : Scalar
  upper : Scalar
deriving DecidableEq

/-- A URDF joint, mirroring the fields of `urdf::Joint` read by the parser:
name, type, `parent_to_joint_origin_transform`, axis and optional limits. -/
structure UrdfJoint where
  name : String
  type : UrdfJointType
  origin : UrdfPose
  axis : Vec3
  limits : Option UrdfLimits

mutual
/-- A URDF link: name, optional inertial block, presence of a visual tag and
the list of children.  Each child link is paired with its `parent_joint`
(the URDF library guarantees every non-root link carries one). -/
inductive UrdfLink : Type where
  | mk (name : String) (inertial : Option UrdfInertial) (visual : Bool)
       (children : UrdfChildren)

/-- The children of a URDF link: a list of (parent joint, child link) pairs. -/
inductive UrdfChildren : Type where
  | nil
  | cons (joint : UrdfJoint) (link : UrdfLink) (rest : UrdfChildren)
end

/-- Name of a link. -/
def UrdfLink.name : UrdfLink → String
  | .mk n _ _ _ => n

/-- Inertial block of a link. -/
def UrdfLink.inertial : UrdfLink → Option UrdfInertial
  | .mk _ i _ _ => i

/-- Whether the link has a visual tag. -/
def UrdfLink.visual : UrdfLink → Bool
  | .mk _ _ v _ => v

/-- Children of a link. -/
def UrdfLink.children : UrdfLink → UrdfChildren
  | .mk _ _ _ c => c

/-! ### URDF value converters (`urdf.hpp`, lines 54-105) -/

/-- `convertFromUrdf(const urdf::Inertial&)` (urdf.hpp line 54): lever is the
inertial origin position, tensor is `R·I·Rᵀ` with `R` the rotation of the
inertial origin quaternion and `I` assembled from the six moments. -/
def convertFromUrdfInertial (y : UrdfInertial) : Inertia :=
  let r := quatToMatrix y.origin.rotation
  let i : Mat3 := Matrix.of ![![y.ixx, y.ixy, y.ixz],
                              ![y.ixy, y.iyy, y.iyz],
                              ![y.ixz, y.iyz, y.izz]]
  ⟨y.mass, (y.origin.position).toV3, r * i * r.transpose⟩

/-- `convertFromUrdf(const urdf::Pose&)` (urdf.hpp line 75). -/
def convertFromUrdfPose (m : UrdfPose) : SE3 :=
  ⟨quatToMatrix m.rotation, (m.position).toV3⟩

/-- The four possible cartesian types of a 3D axis (urdf.hpp line 85). -/
inductive AxisCartesian where
  | AXIS_X
  | AXIS_Y
  | AXIS_Z
  | AXIS_UNALIGNED
deriving DecidableEq

/-- `extractCartesianAxis` (urdf.hpp line 95): exact comparison against the
three canonical basis vectors, in order X, Y, Z. -/
def extractCartesianAxis (axis : Vec3) : AxisCartesian :=
  if axis.x = 1 ∧ axis.y = 0 ∧ axis.z = 0 then .AXIS_X
  else if axis.x = 0 ∧ axis.y = 1 ∧ axis.z = 0 then .AXIS_Y
  else if axis.x = 0 ∧ axis.y = 0 ∧ axis.z = 1 then .AXIS_Z
  else .AXIS_UNALIGNED

/-- `jointAxis.normalize()` (Eigen) applied to a raw URDF axis: division of
each component by the Euclidean norm.  The result is irrational in general,
hence real-valued. -/
noncomputable def normalizeAxis (v : Vec3) : ℝ × ℝ × ℝ :=
  let n : ℝ := Real.sqrt ((v.x : ℝ)^2 + (v.y : ℝ)^2 + (v.z : ℝ)^2)
  ((v.x : ℝ) / n, (v.y : ℝ) / n, (v.z : ℝ) / n)

/-! ### The Model builder (spec §3, §4.3).

The `se3::Model` class (`pinocchio/multibody/model.hpp`) is not part of this
source slice; the structure and the builder operations below are modelled
from the spec. -/

/-- Joint descriptors materialised in the model (spec §3 "Joint descriptor"):
revolute about a canonical axis, revolute about an arbitrary normalised axis,
prismatic about a canonical axis, the free-floating root, and the universe
pseudo-joint reserved for index 0.  A fixed joint is never materialised. -/
inductive JointModel where
  | RX
  | RY
  | RZ
  | revoluteUnaligned (axis : ℝ × ℝ × ℝ)
  | PX
  | PY
  | PZ
  | freeFlyer
  | universe

/-- Configuration-space dimension contributed by a joint (spec §3 `nq`; the
free-flyer configuration carries a quaternion, hence 7). -/
def JointModel.dofQ : JointModel → Nat
  | .freeFlyer => 7
  | .universe => 0
  | _ => 1

/-- Tangent-space dimension contributed by a joint (spec §3 `nv`). -/
def JointModel.dofV : JointModel → Nat
  | .freeFlyer => 6
  | .universe => 0
  | _ => 1

/-- Modelled from the spec: one record of the append-only model (spec §3):
joint descriptor, parent index, placement, names, visual flag and the four
per-joint limit vectors (each empty or of length 1 for 1-DoF joints). -/
structure JointEntry where
  kind : JointModel
  parent : Nat
  placement : SE3
  name : String
  bodyName : String
  hasVisual : Bool
  maxEffort : List Scalar
  velocity : List Scalar
  lowerPosition : List Scalar
  upperPosition : List Scalar

/-- Modelled from the spec: an entry of the `fixedBodies` list (spec §3):
parent joint index, placement, body name and visual flag of a collapsed
fixed link. -/
structure FixedBody where
  parent : Nat
  placement : SE3
  bodyName : String
  hasVisual : Bool

/-- Modelled from the spec: the append-only `Model` (spec §3).  `joints`
holds one entry per materialised joint with index 0 reserved for the
universe pseudo-joint; `inertias` is the parallel list of body inertias;
`fixedBodies` records collapsed fixed links; `nq`/`nv` are the cumulative
dimensions. -/
structure Model where
  joints : List JointEntry
  inertias : List Inertia
  fixedBodies : List FixedBody
  nq : Nat
  nv : Nat

/-- The empty model: only the universe pseudo-joint at index 0. -/
def initialModel : Model :=
  { joints := [⟨.universe, 0, 1, "universe", "universe", false, [], [], [], []⟩],
    inertias := [Inertia.zero],
    fixedBodies := [],
    nq := 0,
    nv := 0 }

/-- Modelled from the spec: `addBody` (spec §4.3) appends a joint/body record
at the next index and updates `nq`, `nv`. -/
def Model.addBody (m : Model) (parent : Nat) (kind : JointModel)
    (placement : SE3) (y : Inertia)
    (maxEffort velocity lowerPosition upperPosition : List Scalar)
    (jointName bodyName : String) (hasVisual : Bool) : Model :=
  { m with
    joints := m.joints ++
      [⟨kind, parent, placement, jointName, bodyName, hasVisual,
        maxEffort, velocity, lowerPosition, upperPosition⟩],
    inertias := m.inertias ++ [y],
    nq := m.nq + kind.dofQ,
    nv := m.nv + kind.dofV }

/-- Modelled from the spec: `addFixedBody` (spec §4.3) appends to
`fixedBodies` only. -/
def Model.addFixedBody (m : Model) (parent : Nat) (placement : SE3)
    (bodyName : String) (hasVisual : Bool) : Model :=
  { m with fixedBodies := m.fixedBodies ++ [⟨parent, placement, bodyName, hasVisual⟩] }

/-- Modelled from the spec: `mergeFixedBody` (spec §4.3) transports the
inertia through the placement and adds it to `inertias[parent]`. -/
def Model.mergeFixedBody (m : Model) (parent : Nat) (placement : SE3)
    (y : Inertia) : Model :=
  { m with
    inertias := m.inertias.set parent
      ((m.inertias.getD parent Inertia.zero).add (placement.act y)) }

/-- Modelled from the spec: `getJointId` (spec §4.3), the index of the first
joint entry with the given name (`std::find` semantics: the list length when
the name is absent). -/
def Model.getJointId (m : Model) (name : String) : Nat :=
  m.joints.findIdx (fun e => e.name == name)

/-- Modelled from the spec: `existJointName` (spec §4.3). -/
def Model.existJointName (m : Model) (name : String) : Bool :=
  m.joints.any (fun e => e.name == name)

/-! ### Errors (spec §7) -/

/-- Error kinds of the compiler, all fatal to the current call (spec §7).
The payload is the exception message built by the source. -/
inductive UrdfError where
  | missingInertia (msg : String)
  | missingJoint (msg : String)
  | unsupportedJointType (msg : String)
  | malformedInput (msg : String)
deriving DecidableEq

/-! ### The tree compiler (`parseTree`, urdf.hpp lines 115-412) -/

mutual
/-- One step of the recursive descent (`parseTree`, urdf.hpp line 115) on a
non-root link together with its `parent_joint`.

`grand` embeds `link->getParent()->parent_joint` after the fixed-joint
re-parenting mutation: its name, or `none` when that joint is null.

The two C++ cases `REVOLUTE` and `CONTINUOUS` are embedded by one branch:
their actions differ only in the verbose `joint_info` string, which does not
affect the produced model.  (The `REVOLUTE` case of the source names its
`addBody` arguments `parent_joint_id` / `has_visual`; the only in-scope
variables are `parent` / `visual`, used by every other case.) -/
noncomputable def parseLink (joint : UrdfJoint) (link : UrdfLink)
    (grand : Option String) (placementOffset : SE3) (model : Model) :
    Except UrdfError Model :=
  match link with
  | .mk linkName linkInertial linkVisual linkChildren =>
    -- urdf.hpp lines 137-141
    if linkInertial.isNone ∧ joint.type ≠ .FIXED then
      .error (.missingInertia (linkName ++ " - spatial inertia information missing."))
    else
      -- urdf.hpp lines 143-144
      let parent : Nat :=
        match grand with
        | none => if model.existJointName "root_joint"
                  then model.getJointId "root_joint" else 0
        | some gname => model.getJointId gname
      -- urdf.hpp line 147
      let jointPlacement := placementOffset * convertFromUrdfPose joint.origin
      -- urdf.hpp lines 149-150
      let y : Inertia :=
        match linkInertial with
        | some yi => convertFromUrdfInertial yi
        | none => Inertia.identity
      -- urdf.hpp line 152
      let visual : Bool := linkVisual
      match joint.type with
      | .REVOLUTE | .CONTINUOUS =>
        -- urdf.hpp lines 160-280
        let maxEffort : List Scalar :=
          match joint.limits with | some l => [l.effort] | none => []
        let velocity : List Scalar :=
          match joint.limits with | some l => [l.velocity] | none => []
        let lowerPosition : List Scalar :=
          match joint.limits with | some l => [l.lower] | none => []
        let upperPosition : List Scalar :=
          match joint.limits with | some l => [l.upper] | none => []
        match extractCartesianAxis joint.axis with
        | .AXIS_X =>
          parseChildren linkChildren (some joint.name) 1
            (model.addBody parent .RX jointPlacement y
              maxEffort velocity lowerPosition upperPosition
              joint.name linkName visual)
        | .AXIS_Y =>
          parseChildren linkChildren (some joint.name) 1
            (model.addBody parent .RY jointPlacement y
              maxEffort velocity lowerPosition upperPosition
              joint.name linkName visual)
        | .AXIS_Z =>
          parseChildren linkChildren (some joint.name) 1
            (model.addBody parent .RZ jointPlacement y
              maxEffort velocity lowerPosition upperPosition
              joint.name linkName visual)
        | .AXIS_UNALIGNED =>
          parseChildren linkChildren (some joint.name) 1
            (model.addBody parent (.revoluteUnaligned (normalizeAxis joint.axis))
              jointPlacement y
              maxEffort velocity lowerPosition upperPosition
              joint.name linkName visual)
      | .PRISMATIC =>
        -- urdf.hpp lines 281-329
        let maxEffort : List Scalar :=
          match joint.limits with | some l => [l.effort] | none => []
        let velocity : List Scalar :=
          match joint.limits with | some l => [l.velocity] | none => []
        let lowerPosition : List Scalar :=
          match joint.limits with | some l => [l.lower] | none => []
        let upperPosition : List Scalar :=
          match joint.limits with | some l => [l.upper] | none => []
        match extractCartesianAxis joint.axis with
        | .AXIS_X =>
          parseChildren linkChildren (some joint.name) 1
            (model.addBody parent .PX jointPlacement y
              maxEffort velocity lowerPosition upperPosition
              joint.name linkName visual)
        | .AXIS_Y =>
          parseChildren linkChildren (some joint.name) 1
            (model.addBody parent .PY jointPlacement y
              maxEffort velocity lowerPosition upperPosition
              joint.name linkName visual)
        | .AXIS_Z =>
          parseChildren linkChildren (some joint.name) 1
            (model.addBody parent .PZ jointPlacement y
              maxEffort velocity lowerPosition upperPosition
              joint.name linkName visual)
        | .AXIS_UNALIGNED =>
          -- urdf.hpp lines 314-323: fatal (assert)
          .error (.unsupportedJointType "Only X, Y or Z axis are accepted.")
      | .FIXED =>
        -- urdf.hpp lines 330-356
        let model1 :=
          if linkInertial.isSome then model.mergeFixedBody parent jointPlacement y
          else model
        let nextPlacementOffset := placementOffset * convertFromUrdfPose joint.origin
        let model2 := model1.addFixedBody parent nextPlacementOffset linkName visual
        -- re-parenting (urdf.hpp lines 352-355): the children keep this
        -- link's `grand`
        parseChildren linkChildren grand nextPlacementOffset model2
      | .OTHER =>
        -- urdf.hpp lines 358-363: fatal (assert)
        .error (.unsupportedJointType "Only revolute, prismatic and fixed joints are accepted.")

/-- The `BOOST_FOREACH` recursion over the children of a link
(urdf.hpp lines 386-389), stopping at the first error. -/
noncomputable def parseChildren (children : UrdfChildren) (grand : Option String)
    (placementOffset : SE3) (model : Model) : Except UrdfError Model :=
  match children with
  | .nil => .ok model
  | .cons joint link rest =>
    match parseLink joint link grand placementOffset model with
    | .error e => .error e
    | .ok model1 => parseChildren rest grand placementOffset model1
end

/-- Whole-tree compilation in fixed-root mode (`parseTree` applied to the root
link, urdf.hpp line 115 via `buildModel` line 446): the root link matches
neither branch (`parent_joint` and `getParent()` are both null), so only its
children are processed, with identity placement offset and a null grand
parent joint. -/
noncomputable def parseTreeFixed (root : UrdfLink) : Except UrdfError Model :=
  parseChildren root.children none 1 initialModel

/-- Whole-tree compilation with an explicit root joint (`parseTree` overload,
urdf.hpp line 402): emit `addBody(0, root_joint, placementOffset, Y,
"root_joint", link->name, true)` — the root body substitutes the identity
inertia when the root link has no inertial block — then process the children
with identity placement offset and a null grand parent joint. -/
noncomputable def parseTreeRootJoint (rootJoint : JointModel)
    (placementOffset : SE3) (root : UrdfLink) : Except UrdfError Model :=
  let y : Inertia :=
    match root.inertial with
    | some yi => convertFromUrdfInertial yi
    | none => Inertia.identity
  let model := initialModel.addBody 0 rootJoint placementOffset y
    [] [] [] [] "root_joint" root.name true
  parseChildren root.children none 1 model

/-! ### Observation functions on URDF trees (used to state the claims) -/

/-- Child of a children list at a position. -/
def childAt : UrdfChildren → Nat → Option (UrdfJoint × UrdfLink)
  | .nil, _ => none
  | .cons j l _, 0 => some (j, l)
  | .cons _ _ rest, n + 1 => childAt rest n

/-- Node of the subtree rooted at the pair (joint, link), addressed by a path
of child positions; `[]` addresses the pair itself. -/
def pairAt (j : UrdfJoint) (l : UrdfLink) : List Nat → Option (UrdfJoint × UrdfLink)
  | [] => some (j, l)
  | i :: rest =>
    match childAt l.children i with
    | some (j', l') => pairAt j' l' rest
    | none => none

/-- Node of the forest formed by a children list, addressed by a (nonempty)
path of child positions. -/
def childrenAt (cs : UrdfChildren) : List Nat → Option (UrdfJoint × UrdfLink)
  | [] => none
  | i :: rest =>
    match childAt cs i with
    | some (j', l') => pairAt j' l' rest
    | none => none

/-- Node of the whole tree addressed by a (nonempty) path of child positions
from the root link. -/
def rootAt (root : UrdfLink) (p : List Nat) : Option (UrdfJoint × UrdfLink) :=
  childrenAt root.children p

/-- URDF joints on the chain strictly above the node addressed by the path
inside the subtree rooted at (joint, link): the joint itself is an ancestor
of every proper descendant, root-first order. -/
def ancJoints (j : UrdfJoint) (l : UrdfLink) : List Nat → List UrdfJoint
  | [] => []
  | i :: rest =>
    match childAt l.children i with
    | some (j', l') => j :: ancJoints j' l' rest
    | none => [j]

/-- URDF joints on the chain strictly above the node addressed by the path
inside the forest formed by a children list. -/
def childrenAncJoints (cs : UrdfChildren) : List Nat → List UrdfJoint
  | [] => []
  | i :: rest =>
    match childAt cs i with
    | some (j', l') => ancJoints j' l' rest
    | none => []

/-- URDF joints on the chain strictly above the node addressed by the path
from the root link. -/
def rootAncJoints (root : UrdfLink) (p : List Nat) : List UrdfJoint :=
  childrenAncJoints root.children p

/-- Name of the nearest (deepest) non-fixed joint of an ancestor chain, with a
fallback: walking a root-first ancestor chain, a fixed joint is transparent
and a non-fixed joint shadows everything above it.  This is the "nearest
non-fixed ancestor" of spec §4.4 step 1. -/
def nearestNonFixed (g : Option String) (js : List UrdfJoint) : Option String :=
  js.foldl (fun acc jt => if jt.type = .FIXED then acc else some jt.name) g

mutual
/-- Names of all joints of the subtrees of a link's children. -/
def linkJointNames : UrdfLink → List String
  | .mk _ _ _ cs => childrenJointNames cs

/-- Names of all joints of a children list, pre-order. -/
def childrenJointNames : UrdfChildren → List String
  | .nil => []
  | .cons j l rest => j.name :: (linkJointNames l ++ childrenJointNames rest)
end

/-- Names of all joints of the subtree (joint, link): the pair's own joint and
every joint below it. -/
def pairJointNames (j : UrdfJoint) (l : UrdfLink) : List String :=
  j.name :: linkJointNames l

mutual
/-- Sum of the `<inertial>` masses of a link's own inertial block and of all
links below it. -/
def linkMassSum : UrdfLink → Scalar
  | .mk _ inertial _ cs =>
    (match inertial with | some yi => yi.mass | none => 0) + childrenMassSum cs

/-- Sum of the `<inertial>` masses of all links of a children list. -/
def childrenMassSum : UrdfChildren → Scalar
  | .nil => 0
  | .cons _ l rest => linkMassSum l + childrenMassSum rest
end

/-- Total mass of a built model: the masses merged into parents by
`mergeFixedBody` are part of the parent's `inertias` entry, so this sum is
the "Σ inertias[i].mass + Σ masses merged into parents" of spec P2. -/
def Model.totalMass (m : Model) : Scalar :=
  (m.inertias.map Inertia.mass).sum

mutual
/-- Whether some link of the subtree below a link is attached by a non-fixed
joint and has no inertial block. -/
def linkHasBadInertia : UrdfLink → Bool
  | .mk _ _ _ cs => childrenHaveBadInertia cs

/-- Whether some link of a children list is attached by a non-fixed joint and
has no inertial block, the pair's own joint included. -/
def childrenHaveBadInertia : UrdfChildren → Bool
  | .nil => false
  | .cons j l rest =>
    (l.inertial.isNone && !(j.type == .FIXED)) || linkHasBadInertia l
      || childrenHaveBadInertia rest
end

/-! ### Jacobian accessor proxies
(`bindings/python/algorithm/expose-jacobian.cpp`).

The dynamics algorithms `computeJointJacobians` and `getJointJacobian` are
external collaborators (spec §1, §4.6) whose sources are not part of this
slice; the proxies are embedded parametrically in them.  The C++ functions
mutate `Data` in place; the embedding passes the updated cache explicitly. -/

/-- The reference-frame selector (spec §6). -/
inductive ReferenceFrame where
  | LOCAL
  | WORLD
deriving DecidableEq

/-- `jacobian_proxy` (expose-jacobian.cpp lines 13-29): allocate a zero 6×nv
matrix, update the kinematics cache when requested, then fill the matrix via
`getJointJacobian`. -/
def jacobianProxy {Mo Da Qv Mx : Type}
    (computeJointJacobians : Mo → Da → Qv → Da)
    (getJointJacobian : Mo → Da → Nat → ReferenceFrame → Mx → Mx)
    (zeroMatrix : Mo → Mx)
    (model : Mo) (data : Da) (q : Qv) (jointId : Nat) (rf : ReferenceFrame)
    (updateKinematics : Bool) : Mx :=
  let data1 := if updateKinematics then computeJointJacobians model data q else data
  getJointJacobian model data1 jointId rf (zeroMatrix model)

/-- `get_jacobian_proxy` (expose-jacobian.cpp lines 31-41): allocate a zero
6×nv matrix and fill it via `getJointJacobian`. -/
def getJacobianProxy {Mo Da Mx : Type}
    (getJointJacobian : Mo → Da → Nat → ReferenceFrame → Mx → Mx)
    (zeroMatrix : Mo → Mx)
    (model : Mo) (data : Da) (jointId : Nat) (rf : ReferenceFrame) : Mx :=
  getJointJacobian model data jointId rf (zeroMatrix model)

/-! ### Result classifiers and accessors -/

/-- Whether a compilation result is an error. -/
def isErr : Except UrdfError Model → Bool
  | .error _ => true
  | .ok _ => false

/-- Whether a compilation result is a `MissingInertia` failure. -/
def isMissingInertiaErr : Except UrdfError Model → Bool
  | .error (.missingInertia _) => true
  | _ => false

/-- Whether a compilation result is an `UnsupportedJointType` failure. -/
def isUnsupportedErr : Except UrdfError Model → Bool
  | .error (.unsupportedJointType _) => true
  | _ => false

/-- The model of a successful compilation (the empty model on failure). -/
def okModel : Except UrdfError Model → Model
  | .ok m => m
  | .error _ => initialModel

/-- A placeholder joint entry. -/
def defaultEntry : JointEntry :=
  ⟨.universe, 0, 1, "", "", false, [], [], [], []⟩

/-- The joint entry of a compilation result at an index. -/
def entryAt (r : Except UrdfError Model) (i : Nat) : JointEntry :=
  ((okModel r).joints[i]?).getD defaultEntry

/-! ### Concrete URDF inputs used by the witnesses and counterexamples -/

/-- The identity URDF pose. -/
def pose0 : UrdfPose := ⟨⟨0, 0, 0⟩, ⟨1, 0, 0, 0⟩⟩

/-- A diagonal inertial block of the given mass at the link origin. -/
def inertOf (m : Scalar) : UrdfInertial := ⟨pose0, m, 1, 0, 0, 1, 0, 1⟩

/-- Revolute joint "j1" about Z with limits (10, 1, -3, 3). -/
def jZ : UrdfJoint := ⟨"j1", .REVOLUTE, pose0, ⟨0, 0, 1⟩, some ⟨10, 1, -3, 3⟩⟩

/-- Link "l1" with a unit-mass inertial block and a visual tag. -/
def l1 : UrdfLink := .mk "l1" (some (inertOf 1)) true .nil

/-- Two-link revolute chain: fixed root "base", `jZ` attaching `l1`. -/
def sampleChain : UrdfLink := .mk "base" none false (.cons jZ l1 .nil)

/-- A fixed joint "jf". -/
def jF : UrdfJoint := ⟨"jf", .FIXED, pose0, ⟨0, 0, 1⟩, none⟩

/-- Revolute joint "j2" about Z without limits. -/
def j2 : UrdfJoint := ⟨"j2", .REVOLUTE, pose0, ⟨0, 0, 1⟩, none⟩

/-- Link "l2" with a unit-mass inertial block. -/
def l2 : UrdfLink := .mk "l2" (some (inertOf 1)) false .nil

/-- Link "mid" with a mass-3 inertial block and the child joint `j2`. -/
def lMid : UrdfLink := .mk "mid" (some (inertOf 3)) false (.cons j2 l2 .nil)

/-- Chain with a collapsed fixed joint: root "base", fixed `jF` to "mid",
revolute `j2` to "l2". -/
def wChainFixed : UrdfLink := .mk "base" none false (.cons jF lMid .nil)

/-- A URDF joint that happens to be named "root_joint". -/
def jRootName : UrdfJoint := ⟨"root_joint", .REVOLUTE, pose0, ⟨0, 0, 1⟩, none⟩

/-- Link "lA" with a unit-mass inertial block. -/
def lA : UrdfLink := .mk "lA" (some (inertOf 1)) false .nil

/-- Revolute joint "jB" about Z. -/
def jB : UrdfJoint := ⟨"jB", .REVOLUTE, pose0, ⟨0, 0, 1⟩, none⟩

/-- Link "lB" with a unit-mass inertial block. -/
def lB : UrdfLink := .mk "lB" (some (inertOf 1)) false .nil

/-- Fixed-root tree whose first URDF joint is itself named "root_joint":
root "base" with children (`jRootName`, "lA") and (`jB`, "lB"). -/
def cexRootName : UrdfLink :=
  .mk "base" none false (.cons jRootName lA (.cons jB lB .nil))

/-- Revolute joint "jm1" about Z. -/
def jm1 : UrdfJoint := ⟨"jm1", .REVOLUTE, pose0, ⟨0, 0, 1⟩, none⟩

/-- Link "lm1" with a mass-3 inertial block. -/
def lm1 : UrdfLink := .mk "lm1" (some (inertOf 3)) false .nil

/-- Fixed-root tree whose root link "base" carries a mass-2 inertial block
and one revolute child of mass 3. -/
def cexMass : UrdfLink := .mk "base" (some (inertOf 2)) false (.cons jm1 lm1 .nil)

/-- Prismatic joint "jp" with the unaligned axis (1,1,0). -/
def jpU : UrdfJoint := ⟨"jp", .PRISMATIC, pose0, ⟨1, 1, 0⟩, none⟩

/-- Link "lp" with a unit-mass inertial block. -/
def lpIn : UrdfLink := .mk "lp" (some (inertOf 1)) false .nil

/-- Link "lp" without an inertial block. -/
def lpNo : UrdfLink := .mk "lp" none false .nil

/-- Revolute joint "jr" about Z. -/
def jrN : UrdfJoint := ⟨"jr", .REVOLUTE, pose0, ⟨0, 0, 1⟩, none⟩

/-- Link "lr" without an inertial block. -/
def lrN : UrdfLink := .mk "lr" none false .nil

/-- Fixed-root tree processing, in order, a prismatic joint with an unaligned
axis (inertial present) and then a revolute joint whose child link has no
inertial block. -/
def cexC5 : UrdfLink :=
  .mk "base" none false (.cons jpU lpIn (.cons jrN lrN .nil))

/-- Fixed-root tree with a single prismatic joint with unaligned axis whose
child link has no inertial block. -/
def cexC6 : UrdfLink := .mk "base" none false (.cons jpU lpNo .nil)

/-- Fixed-root tree with a single revolute joint whose child link has no
inertial block. -/
def cexMissing : UrdfLink := .mk "base" none false (.cons jrN lrN .nil)

/-- Prismatic joint "jpx" about the canonical X axis. -/
def jpX : UrdfJoint := ⟨"jpx", .PRISMATIC, pose0, ⟨1, 0, 0⟩, none⟩

/-- Revolute joint "jru" with the unaligned axis (1,1,0). -/
def jrU : UrdfJoint := ⟨"jru", .REVOLUTE, pose0, ⟨1, 1, 0⟩, none⟩

/-! ### Spec-side descriptions of single emission steps -/

/-- The effective parent joint index computed by the compiler
(urdf.hpp lines 143-144), as a function of the model and of the (effective)
grand parent joint name. -/
def resolveParent (m : Model) (grand : Option String) : Nat :=
  match grand with
  | none => if m.existJointName "root_joint" then m.getJointId "root_joint" else 0
  | some gname => m.getJointId gname

/-- The four limit vectors stored for a 1-DoF joint: length-1 vectors when the
URDF joint carries a limit block, empty vectors otherwise (spec §4.4
"Limits"). -/
def limitVectors (j : UrdfJoint) :
    List Scalar × List Scalar × List Scalar × List Scalar :=
  match j.limits with
  | some l => ([l.effort], [l.velocity], [l.lower], [l.upper])
  | none => ([], [], [], [])

/-- The joint descriptor the compiler materialises for a URDF joint, `none`
when the joint is never materialised (fixed, unsupported type, prismatic with
unaligned axis). -/
noncomputable def emittedKind (j : UrdfJoint) : Option JointModel :=
  match j.type with
  | .REVOLUTE | .CONTINUOUS =>
    match extractCartesianAxis j.axis with
    | .AXIS_X => some .RX
    | .AXIS_Y => some .RY
    | .AXIS_Z => some .RZ
    | .AXIS_UNALIGNED => some (.revoluteUnaligned (normalizeAxis j.axis))
  | .PRISMATIC =>
    match extractCartesianAxis j.axis with
    | .AXIS_X => some .PX
    | .AXIS_Y => some .PY
    | .AXIS_Z => some .PZ
    | .AXIS_UNALIGNED => none
  | .FIXED => none
  | .OTHER => none

/-- A model entry is the one the compiler emits for a URDF joint: same name,
the materialised joint descriptor, and the limit vectors dictated by the
URDF limit block. -/
def entryMatches (j : UrdfJoint) (e : JointEntry) : Prop :=
  e.name = j.name ∧ emittedKind j = some e.kind ∧
  (e.maxEffort, e.velocity, e.lowerPosition, e.upperPosition) = limitVectors j

/-- The spatial inertia the compiler associates to a link (urdf.hpp lines
149-150): the converted inertial block when present, the identity inertia
otherwise. -/
def linkInertia (l : UrdfLink) : Inertia :=
  match l.inertial with
  | some yi => convertFromUrdfInertial yi
  | none => Inertia.identity

/-- Every joint entry of index at least 1 has a strictly smaller parent
index (spec invariant I1: `parents[i] < i`). -/
def ParentsLT (m : Model) : Prop :=
  ∀ i e, m.joints[i]? = some e → 1 ≤ i → e.parent < i

/-- A materialised joint is never of fixed type. -/
theorem emittedKind_ne_fixed {j : UrdfJoint} {k : JointModel}
    (h : emittedKind j = some k) : j.type ≠ .FIXED := by
  intro ht
  simp [emittedKind, ht] at h

/-! ### Step lemmas: one `parseLink` invocation per joint kind -/

/-- A link with no inertial block attached by a non-fixed joint is fatal
(urdf.hpp lines 137-141). -/
theorem parseLink_missingInertia {j : UrdfJoint} {l : UrdfLink}
    (g : Option String) (off : SE3) (m : Model)
    (hin : l.inertial = none) (hj : j.type ≠ .FIXED) :
    parseLink j l g off m =
      .error (.missingInertia (l.name ++ " - spatial inertia information missing.")) := by
  cases l with
  | mk nm i v cs =>
    simp only [UrdfLink.inertial] at hin
    subst hin
    simp [parseLink, hj, UrdfLink.name]

/-- A materialised (revolute, continuous or aligned prismatic) joint: the body
is emitted by `addBody` with the resolved parent, the materialised joint
descriptor, the composed joint placement, the converted inertia and the four
limit vectors; the children are processed with the joint's own name as grand
parent joint and the identity placement offset. -/
theorem parseLink_emit {j : UrdfJoint} {l : UrdfLink} {k : JointModel}
    (g : Option String) (off : SE3) (m : Model)
    (hk : emittedKind j = some k) {yi : UrdfInertial} (hin : l.inertial = some yi) :
    parseLink j l g off m =
      parseChildren l.children (some j.name) 1
        (m.addBody (resolveParent m g) k (off * convertFromUrdfPose j.origin)
          (convertFromUrdfInertial yi)
          (limitVectors j).1 (limitVectors j).2.1
          (limitVectors j).2.2.1 (limitVectors j).2.2.2
          j.name l.name l.visual) := by
  cases l with
  | mk nm i v cs =>
    simp only [UrdfLink.inertial] at hin
    subst hin
    rcases htype : j.type with _ | _ | _ | _ | _ <;>
      simp only [emittedKind, htype] at hk
    case FIXED => exact absurd hk (by simp)
    case OTHER => exact absurd hk (by simp)
    case REVOLUTE | CONTINUOUS | PRISMATIC =>
      rcases hax : extractCartesianAxis j.axis with _ | _ | _ | _ <;>
        simp only [hax] at hk <;>
        first
        | (cases hk ;
           simp [parseLink, htype, hax, resolveParent, limitVectors,
                 UrdfLink.name, UrdfLink.visual, UrdfLink.children] ;
           cases j.limits <;> rfl)
        | cases hk

/-- A fixed joint (urdf.hpp lines 330-356): the parent inertia is merged
exactly when the link has an inertial block, one `fixedBodies` entry is
appended with the accumulated placement offset, no `addBody` happens, and the
children are processed with the unchanged grand parent joint and the
accumulated offset. -/
theorem parseLink_fixed {j : UrdfJoint} (l : UrdfLink)
    (g : Option String) (off : SE3) (m : Model) (hj : j.type = .FIXED) :
    parseLink j l g off m =
      parseChildren l.children g (off * convertFromUrdfPose j.origin)
        ((if l.inertial.isSome then
            m.mergeFixedBody (resolveParent m g)
              (off * convertFromUrdfPose j.origin) (linkInertia l)
          else m).addFixedBody (resolveParent m g)
            (off * convertFromUrdfPose j.origin) l.name l.visual) := by
  cases l with
  | mk nm i v cs =>
    cases i <;>
      simp [parseLink, hj, resolveParent, linkInertia,
            UrdfLink.name, UrdfLink.visual, UrdfLink.children, UrdfLink.inertial]

/-- A prismatic joint with an unaligned axis is fatal
(urdf.hpp lines 314-323), provided the link's inertial block is present (a
missing inertial block is reported first). -/
theorem parseLink_prismaticUnaligned {j : UrdfJoint} {l : UrdfLink}
    (g : Option String) (off : SE3) (m : Model)
    (hj : j.type = .PRISMATIC)
    (hax : extractCartesianAxis j.axis = .AXIS_UNALIGNED)
    (hin : l.inertial.isSome) :
    parseLink j l g off m =
      .error (.unsupportedJointType "Only X, Y or Z axis are accepted.") := by
  cases l with
  | mk nm i v cs =>
    simp only [UrdfLink.inertial] at hin
    cases i with
    | none => simp at hin
    | some yi => simp [parseLink, hj, hax]

/-- A joint of unrecognised type is fatal (urdf.hpp lines 358-363), provided
the link's inertial block is present. -/
theorem parseLink_otherType {j : UrdfJoint} {l : UrdfLink}
    (g : Option String) (off : SE3) (m : Model)
    (hj : j.type = .OTHER) (hin : l.inertial.isSome) :
    parseLink j l g off m =
      .error (.unsupportedJointType "Only revolute, prismatic and fixed joints are accepted.") := by
  cases l with
  | mk nm i v cs =>
    simp only [UrdfLink.inertial] at hin
    cases i with
    | none => simp at hin
    | some yi => simp [parseLink, hj]

/-! ### Builder bookkeeping lemmas -/

theorem addBody_joints (m : Model) (parent : Nat) (kind : JointModel)
    (pl : SE3) (y : Inertia) (me ve lo up : List Scalar)
    (jn bn : String) (hv : Bool) :
    (m.addBody parent kind pl y me ve lo up jn bn hv).joints =
      m.joints ++ [⟨kind, parent, pl, jn, bn, hv, me, ve, lo, up⟩] := rfl

theorem addFixedBody_joints (m : Model) (parent : Nat) (pl : SE3)
    (bn : String) (hv : Bool) :
    (m.addFixedBody parent pl bn hv).joints = m.joints := rfl

theorem mergeFixedBody_joints (m : Model) (parent : Nat) (pl : SE3)
    (y : Inertia) :
    (m.mergeFixedBody parent pl y).joints = m.joints := rfl

theorem pairAt_cons (j : UrdfJoint) (l : UrdfLink) (i : Nat) (sp : List Nat) :
    pairAt j l (i :: sp) = childrenAt l.children (i :: sp) := rfl

theorem childrenAt_cons_zero (j : UrdfJoint) (l : UrdfLink)
    (rest : UrdfChildren) (sp : List Nat) :
    childrenAt (.cons j l rest) (0 :: sp) = pairAt j l sp := rfl

theorem childrenAt_cons_succ (j : UrdfJoint) (l : UrdfLink)
    (rest : UrdfChildren) (i : Nat) (sp : List Nat) :
    childrenAt (.cons j l rest) ((i + 1) :: sp) = childrenAt rest (i :: sp) := rfl

/-- The limit quadruple reassembled from its components. -/
theorem limitVectors_eta (j : UrdfJoint) :
    ((limitVectors j).1, (limitVectors j).2.1,
     (limitVectors j).2.2.1, (limitVectors j).2.2.2) = limitVectors j := rfl

theorem sizeOf_children_lt (l : UrdfLink) : sizeOf l.children < sizeOf l := by
  cases l with
  | mk n i v cs => simp [UrdfLink.children]

theorem sizeOf_lt_cons_link (j : UrdfJoint) (l : UrdfLink) (rest : UrdfChildren) :
    sizeOf l < sizeOf (UrdfChildren.cons j l rest) := by
  change sizeOf l < 1 + sizeOf j + sizeOf l + sizeOf rest; omega

theorem sizeOf_lt_cons_rest (j : UrdfJoint) (l : UrdfLink) (rest : UrdfChildren) :
    sizeOf rest < sizeOf (UrdfChildren.cons j l rest) := by
  change sizeOf rest < 1 + sizeOf j + sizeOf l + sizeOf rest; omega

/-- Classification of a successful non-fixed step: the link's inertial block
is present and the joint is materialised. -/
theorem parseLink_ok_kind {j : UrdfJoint} {l : UrdfLink} {g : Option String}
    {off : SE3} {m M : Model} (h : parseLink j l g off m = .ok M)
    (hnf : j.type ≠ .FIXED) :
    ∃ yi, l.inertial = some yi ∧ ∃ k, emittedKind j = some k := by
  cases hin : l.inertial with
  | none => rw [parseLink_missingInertia g off m hin hnf] at h; cases h
  | some yi =>
    refine ⟨yi, rfl, ?_⟩
    cases hjt : j.type with
    | FIXED => exact absurd hjt hnf
    | OTHER =>
      rw [parseLink_otherType g off m hjt (by simp [hin])] at h; cases h
    | REVOLUTE =>
      cases hax : extractCartesianAxis j.axis with
      | AXIS_X => exact ⟨.RX, by simp [emittedKind, hjt, hax]⟩
      | AXIS_Y => exact ⟨.RY, by simp [emittedKind, hjt, hax]⟩
      | AXIS_Z => exact ⟨.RZ, by simp [emittedKind, hjt, hax]⟩
      | AXIS_UNALIGNED =>
        exact ⟨.revoluteUnaligned (normalizeAxis j.axis),
          by simp [emittedKind, hjt, hax]⟩
    | CONTINUOUS =>
      cases hax : extractCartesianAxis j.axis with
      | AXIS_X => exact ⟨.RX, by simp [emittedKind, hjt, hax]⟩
      | AXIS_Y => exact ⟨.RY, by simp [emittedKind, hjt, hax]⟩
      | AXIS_Z => exact ⟨.RZ, by simp [emittedKind, hjt, hax]⟩
      | AXIS_UNALIGNED =>
        exact ⟨.revoluteUnaligned (normalizeAxis j.axis),
          by simp [emittedKind, hjt, hax]⟩
    | PRISMATIC =>
      cases hax : extractCartesianAxis j.axis with
      | AXIS_UNALIGNED =>
        rw [parseLink_prismaticUnaligned g off m hjt hax (by simp [hin])] at h
        cases h
      | AXIS_X => exact ⟨.PX, by simp [emittedKind, hjt, hax]⟩
      | AXIS_Y => exact ⟨.PY, by simp [emittedKind, hjt, hax]⟩
      | AXIS_Z => exact ⟨.PZ, by simp [emittedKind, hjt, hax]⟩

/-! ### Growth and provenance

A successful run only appends to `joints`, and every appended entry is the
emission of some non-fixed URDF joint of the processed forest. -/

theorem parseChildren_grow : ∀ (cs : UrdfChildren) (g : Option String)
    (off : SE3) (m M : Model), parseChildren cs g off m = .ok M →
    ∃ t, M.joints = m.joints ++ t ∧
      ∀ e ∈ t, ∃ p j' l', childrenAt cs p = some (j', l') ∧ entryMatches j' e
  | .nil, g, off, m, M, h => by
    simp only [parseChildren] at h
    cases h
    exact ⟨[], by simp, by simp⟩
  | .cons j l rest, g, off, m, M, h => by
    simp only [parseChildren] at h
    cases hcall : parseLink j l g off m with
    | error e => rw [hcall] at h; cases h
    | ok m1 =>
      rw [hcall] at h
      have hhead : ∃ t1, m1.joints = m.joints ++ t1 ∧
          ∀ e ∈ t1, ∃ sp j' l', pairAt j l sp = some (j', l') ∧ entryMatches j' e := by
        by_cases hnf : j.type = .FIXED
        · rw [parseLink_fixed l g off m hnf] at hcall
          obtain ⟨t1, ht1, hprov1⟩ := parseChildren_grow l.children g
            (off * convertFromUrdfPose j.origin) _ m1 hcall
          refine ⟨t1, ?_, ?_⟩
          · rw [ht1, addFixedBody_joints]
            split <;> [rw [mergeFixedBody_joints]; rfl]
          · intro e he
            obtain ⟨p, j', l', hp, hm⟩ := hprov1 e he
            match p, hp with
            | i :: sp, hp =>
              exact ⟨i :: sp, j', l', by rw [pairAt_cons]; exact hp, hm⟩
        · obtain ⟨yi, hin, k, hk⟩ := parseLink_ok_kind hcall hnf
          rw [parseLink_emit g off m hk hin] at hcall
          obtain ⟨t1, ht1, hprov1⟩ := parseChildren_grow l.children (some j.name)
            1 _ m1 hcall
          rw [addBody_joints, List.append_assoc] at ht1
          refine ⟨_ :: t1, ht1, ?_⟩
          intro e he
          rcases List.mem_cons.mp he with he | he
          · subst he
            exact ⟨[], j, l, rfl, rfl, hk, limitVectors_eta j⟩
          · obtain ⟨p, j', l', hp, hm⟩ := hprov1 e he
            match p, hp with
            | i :: sp, hp =>
              exact ⟨i :: sp, j', l', by rw [pairAt_cons]; exact hp, hm⟩
      obtain ⟨t1, ht1, hprov1⟩ := hhead
      obtain ⟨t2, ht2, hprov2⟩ := parseChildren_grow rest g off m1 M h
      refine ⟨t1 ++ t2, by rw [ht2, ht1, List.append_assoc], ?_⟩
      intro e he
      rcases List.mem_append.mp he with he | he
      · obtain ⟨sp, j', l', hp, hm⟩ := hprov1 e he
        exact ⟨0 :: sp, j', l', by rw [childrenAt_cons_zero]; exact hp, hm⟩
      · obtain ⟨p, j', l', hp, hm⟩ := hprov2 e he
        match p, hp with
        | i :: sp, hp =>
          exact ⟨(i + 1) :: sp, j', l',
            by rw [childrenAt_cons_succ]; exact hp, hm⟩
termination_by cs _ _ _ _ _ => sizeOf cs
decreasing_by
  all_goals simp_wf
  all_goals first
    | exact sizeOf_lt_cons_rest j l rest
    | exact Nat.lt_trans (sizeOf_children_lt l) (sizeOf_lt_cons_link j l rest)

/-! ### Name and lookup toolkit -/

theorem linkJointNames_eq (l : UrdfLink) :
    linkJointNames l = childrenJointNames l.children := by
  cases l with
  | mk n i v cs => rfl

theorem childrenJointNames_cons (j : UrdfJoint) (l : UrdfLink)
    (rest : UrdfChildren) :
    childrenJointNames (.cons j l rest) =
      j.name :: (linkJointNames l ++ childrenJointNames rest) := rfl

/-- The joint found by a child lookup contributes its subtree's names to the
children list's names. -/
theorem childAt_names_subset : ∀ (cs : UrdfChildren) (i : Nat)
    (j : UrdfJoint) (l : UrdfLink), childAt cs i = some (j, l) →
    ∀ n, n ∈ pairJointNames j l → n ∈ childrenJointNames cs
  | .nil, i, j, l, h => by cases h
  | .cons j0 l0 rest, 0, j, l, h => by
    cases h
    intro n hn
    rcases List.mem_cons.mp hn with hn | hn
    · exact hn ▸ List.mem_cons_self _ _
    · exact List.mem_cons_of_mem _ (List.mem_append_left _ hn)
  | .cons j0 l0 rest, i + 1, j, l, h => by
    intro n hn
    exact List.mem_cons_of_mem _
      (List.mem_append_right _ (childAt_names_subset rest i j l h n hn))

theorem childrenAt_eq_bind (cs : UrdfChildren) (i : Nat) (sp : List Nat) :
    childrenAt cs (i :: sp) =
      (childAt cs i).bind (fun c => pairAt c.1 c.2 sp) := by
  rcases hc : childAt cs i with _ | ⟨j1, l1⟩ <;> simp [childrenAt, hc]

theorem pairAt_eq_bind (j : UrdfJoint) (l : UrdfLink) (i : Nat) (sp : List Nat) :
    pairAt j l (i :: sp) =
      (childAt l.children i).bind (fun c => pairAt c.1 c.2 sp) := by
  rw [pairAt_cons, childrenAt_eq_bind]

/-- The name of a node of the forest is among the forest's joint names. -/
theorem childrenAt_name_mem : ∀ (p : List Nat) (cs : UrdfChildren)
    (j' : UrdfJoint) (l' : UrdfLink), childrenAt cs p = some (j', l') →
    j'.name ∈ childrenJointNames cs
  | [], _, _, _, h => by cases h
  | i :: sp, cs, j', l', h => by
    rw [childrenAt_eq_bind, Option.bind_eq_some] at h
    obtain ⟨⟨j1, l1⟩, hc, hp⟩ := h
    cases sp with
    | nil =>
      cases hp
      exact childAt_names_subset cs i _ _ hc _ (List.mem_cons_self _ _)
    | cons i2 sp2 =>
      rw [pairAt_cons] at hp
      have := childrenAt_name_mem (i2 :: sp2) l1.children j' l' hp
      exact childAt_names_subset cs i j1 l1 hc j'.name
        (List.mem_cons_of_mem _ (linkJointNames_eq l1 ▸ this))

/-- The name of a node of a subtree is among the subtree's joint names. -/
theorem pairAt_name_mem {sp : List Nat} {j j' : UrdfJoint} {l l' : UrdfLink}
    (h : pairAt j l sp = some (j', l')) : j'.name ∈ pairJointNames j l := by
  cases sp with
  | nil => cases h; exact List.mem_cons_self _ _
  | cons i sp2 =>
    rw [pairAt_cons] at h
    exact List.mem_cons_of_mem _
      (linkJointNames_eq l ▸ childrenAt_name_mem (i :: sp2) l.children j' l' h)

/-- A found name lookup is stable under appending entries. -/
theorem findIdx_append_of_lt {α : Type} {p : α → Bool} {l1 : List α}
    (l2 : List α) (h : l1.findIdx p < l1.length) :
    (l1 ++ l2).findIdx p = l1.findIdx p := by
  rw [List.findIdx_append]; simp [h]

/-- `existJointName` agrees with a successful `getJointId` lookup. -/
theorem existJointName_iff_found (m : Model) (n : String) :
    m.existJointName n = true ↔ m.getJointId n < m.joints.length := by
  rw [Model.existJointName, Model.getJointId, List.any_eq_true,
    List.findIdx_lt_length]

/-- Growth of a model leaves a found lookup unchanged. -/
theorem getJointId_append {m M : Model} {t : List JointEntry}
    (ht : M.joints = m.joints ++ t) {n : String}
    (h : m.getJointId n < m.joints.length) : M.getJointId n = m.getJointId n := by
  rw [Model.getJointId, ht, findIdx_append_of_lt t h]; rfl

/-- Growth of a model by entries avoiding a name leaves `existJointName` for
that name unchanged. -/
theorem existJointName_append {m M : Model} {t : List JointEntry}
    (ht : M.joints = m.joints ++ t) {n : String}
    (hn : ∀ e ∈ t, e.name ≠ n) : M.existJointName n = m.existJointName n := by
  rw [Model.existJointName, Model.existJointName, ht, List.any_append]
  have : t.any (fun e => e.name == n) = false := by
    rw [List.any_eq_false]
    intro e he
    simpa using hn e he
  rw [this, Bool.or_false]

/-- The resolved parent index is stable under growth of the model by entries
that avoid the name "root_joint", provided the grand name (when present) is
already found. -/
theorem resolveParent_stable {m M : Model} {t : List JointEntry}
    (ht : M.joints = m.joints ++ t) (g : Option String)
    (hg : ∀ n, g = some n → m.getJointId n < m.joints.length)
    (hr : ∀ e ∈ t, e.name ≠ "root_joint") :
    resolveParent M g = resolveParent m g := by
  cases g with
  | some n => exact getJointId_append ht (hg n rfl)
  | none =>
    rw [resolveParent, resolveParent, existJointName_append ht hr]
    cases hex : m.existJointName "root_joint"
    · simp
    · simp only [if_pos rfl]
      exact getJointId_append ht ((existJointName_iff_found m _).mp hex)

/-- The resolved parent index is a valid joint index. -/
theorem resolveParent_lt (m : Model) (g : Option String)
    (hg : ∀ n, g = some n → m.getJointId n < m.joints.length)
    (h1 : 1 ≤ m.joints.length) : resolveParent m g < m.joints.length := by
  cases g with
  | some n => exact hg n rfl
  | none =>
    rw [resolveParent]
    cases hex : m.existJointName "root_joint"
    · simpa using h1
    · simpa using (existJointName_iff_found m _).mp hex

/-! ### The parent-before-child invariant (spec I1) -/

theorem getJointId_congr {a b : Model} (h : a.joints = b.joints) (n : String) :
    a.getJointId n = b.getJointId n := by
  rw [Model.getJointId, Model.getJointId, h]

theorem getJointId_lt_of_mem {m : Model} {n : String}
    (h : ∃ e ∈ m.joints, e.name = n) : m.getJointId n < m.joints.length := by
  obtain ⟨e, he, hn⟩ := h
  exact List.findIdx_lt_length_of_exists ⟨e, he, by simp [hn]⟩

theorem parentsLT_addBody {m : Model} (hLT : ParentsLT m) {p : Nat}
    (hp : p < m.joints.length) (kind : JointModel) (pl : SE3) (y : Inertia)
    (me ve lo up : List Scalar) (jn bn : String) (hv : Bool) :
    ParentsLT (m.addBody p kind pl y me ve lo up jn bn hv) := by
  intro i e hi h1
  rw [addBody_joints] at hi
  rcases Nat.lt_trichotomy i m.joints.length with hlt | heq | hgt
  · rw [List.getElem?_append_left hlt] at hi
    exact hLT i e hi h1
  · subst heq
    rw [List.getElem?_concat_length] at hi
    cases hi
    exact hp
  · rw [List.getElem?_eq_none (by simpa using hgt)] at hi
    cases hi

/-- A successful run preserves the parent-before-child invariant, provided
the grand joint name (when present) is already found in the model and the
model is nonempty. -/
theorem parseChildren_parentsLT : ∀ (cs : UrdfChildren) (g : Option String)
    (off : SE3) (m M : Model), parseChildren cs g off m = .ok M →
    (∀ n, g = some n → m.getJointId n < m.joints.length) →
    1 ≤ m.joints.length → ParentsLT m → ParentsLT M
  | .nil, g, off, m, M, h, hg, h1, hLT => by
    simp only [parseChildren] at h
    cases h
    exact hLT
  | .cons j l rest, g, off, m, M, h, hg, h1, hLT => by
    simp only [parseChildren] at h
    cases hcall : parseLink j l g off m with
    | error e => rw [hcall] at h; cases h
    | ok m1 =>
      rw [hcall] at h
      have hnext : (∀ n, g = some n → m1.getJointId n < m1.joints.length) ∧
          1 ≤ m1.joints.length ∧ ParentsLT m1 := by
        by_cases hnf : j.type = .FIXED
        · rw [parseLink_fixed l g off m hnf] at hcall
          set m2 := (if l.inertial.isSome then
              m.mergeFixedBody (resolveParent m g)
                (off * convertFromUrdfPose j.origin) (linkInertia l)
            else m).addFixedBody (resolveParent m g)
              (off * convertFromUrdfPose j.origin) l.name l.visual with hm2def
          have hm2 : m2.joints = m.joints := by
            rw [hm2def, addFixedBody_joints]
            split <;> [rw [mergeFixedBody_joints]; rfl]
          obtain ⟨t, ht, -⟩ := parseChildren_grow l.children g
            (off * convertFromUrdfPose j.origin) m2 m1 hcall
          rw [hm2] at ht
          have hLT2 : ParentsLT m2 := by
            intro i e hi hi1
            rw [hm2] at hi
            exact hLT i e hi hi1
          refine ⟨?_, ?_, ?_⟩
          · intro n hn
            rw [getJointId_append ht (hg n hn), ht]
            calc m.getJointId n < m.joints.length := hg n hn
              _ ≤ (m.joints ++ t).length := by simp
          · rw [ht]; simp; omega
          · refine parseChildren_parentsLT l.children g _ m2 m1 hcall ?_ ?_ hLT2
            · intro n hn
              rw [getJointId_congr hm2, hm2]
              exact hg n hn
            · rw [hm2]; exact h1
        · obtain ⟨yi, hin, k, hk⟩ := parseLink_ok_kind hcall hnf
          rw [parseLink_emit g off m hk hin] at hcall
          set m' := m.addBody (resolveParent m g) k
            (off * convertFromUrdfPose j.origin) (convertFromUrdfInertial yi)
            (limitVectors j).1 (limitVectors j).2.1
            (limitVectors j).2.2.1 (limitVectors j).2.2.2
            j.name l.name l.visual with hmPdef
          have hm' : m'.joints = m.joints ++
              [⟨k, resolveParent m g, off * convertFromUrdfPose j.origin,
                j.name, l.name, l.visual,
                (limitVectors j).1, (limitVectors j).2.1,
                (limitVectors j).2.2.1, (limitVectors j).2.2.2⟩] := by
            rw [hmPdef, addBody_joints]
          have hLT' : ParentsLT m' :=
            parentsLT_addBody hLT (resolveParent_lt m g hg h1) _ _ _ _ _ _ _ _ _ _
          have hgj : m'.getJointId j.name < m'.joints.length := by
            refine getJointId_lt_of_mem
              ⟨⟨k, resolveParent m g, off * convertFromUrdfPose j.origin,
                j.name, l.name, l.visual,
                (limitVectors j).1, (limitVectors j).2.1,
                (limitVectors j).2.2.1, (limitVectors j).2.2.2⟩, ?_, rfl⟩
            rw [hm']
            exact List.mem_append_right _ (List.mem_singleton_self _)
          have h1' : 1 ≤ m'.joints.length := by
            rw [hm']; simp
          have hLT1 : ParentsLT m1 := parseChildren_parentsLT l.children
            (some j.name) 1 m' m1 hcall
            (by intro n hn; cases hn; exact hgj) h1' hLT'
          obtain ⟨t, ht, -⟩ := parseChildren_grow l.children (some j.name)
            1 m' m1 hcall
          refine ⟨?_, ?_, hLT1⟩
          · intro n hn
            have hfound : m'.getJointId n < m'.joints.length := by
              have : m'.getJointId n = m.getJointId n :=
                getJointId_append (t := [_]) hm' (hg n hn)
              rw [this, hm']
              calc m.getJointId n < m.joints.length := hg n hn
                _ ≤ _ := by simp
            rw [getJointId_append ht hfound, ht]
            calc m'.getJointId n < m'.joints.length := hfound
              _ ≤ (m'.joints ++ t).length := by simp
          · rw [ht, List.length_append]; omega
      obtain ⟨hg1, h11, hLT1⟩ := hnext
      exact parseChildren_parentsLT rest g off m1 M h hg1 h11 hLT1
termination_by cs _ _ _ _ _ _ _ _ => sizeOf cs
decreasing_by
  all_goals simp_wf
  all_goals first
    | exact sizeOf_lt_cons_rest j l rest
    | exact Nat.lt_trans (sizeOf_children_lt l) (sizeOf_lt_cons_link j l rest)

/-! ### Nearest non-fixed ancestor analysis -/

theorem nearestNonFixed_nil (g : Option String) : nearestNonFixed g [] = g := rfl

theorem nearestNonFixed_cons (g : Option String) (j : UrdfJoint)
    (js : List UrdfJoint) :
    nearestNonFixed g (j :: js) =
      nearestNonFixed (if j.type = .FIXED then g else some j.name) js := rfl

theorem nearestNonFixed_isSome : ∀ (js : List UrdfJoint) (n : String),
    ∃ n', nearestNonFixed (some n) js = some n'
  | [], n => ⟨n, rfl⟩
  | j :: js, n => by
    rw [nearestNonFixed_cons]
    split
    · exact nearestNonFixed_isSome js n
    · exact nearestNonFixed_isSome js j.name

theorem ancJoints_cons_eq (j : UrdfJoint) (l : UrdfLink) (i : Nat)
    (sp : List Nat) :
    ancJoints j l (i :: sp) = j :: childrenAncJoints l.children (i :: sp) := by
  rcases hc : childAt l.children i with _ | ⟨j1, l1⟩ <;>
    simp [ancJoints, childrenAncJoints, hc]

theorem childrenAncJoints_cons_zero (j : UrdfJoint) (l : UrdfLink)
    (rest : UrdfChildren) (sp : List Nat) :
    childrenAncJoints (.cons j l rest) (0 :: sp) = ancJoints j l sp := rfl

theorem childrenAncJoints_cons_succ (j : UrdfJoint) (l : UrdfLink)
    (rest : UrdfChildren) (i : Nat) (sp : List Nat) :
    childrenAncJoints (.cons j l rest) ((i + 1) :: sp) =
      childrenAncJoints rest (i :: sp) := rfl

/-- The nearest non-fixed ancestor of a node of a subtree is either the
fallback or a reachable non-fixed node of the subtree. -/
theorem nearest_pair_witness : ∀ (sp : List Nat) (j : UrdfJoint) (l : UrdfLink)
    (g : Option String),
    nearestNonFixed g (ancJoints j l sp) = g ∨
    ∃ sp0 K lK, pairAt j l sp0 = some (K, lK) ∧ K.type ≠ .FIXED ∧
      nearestNonFixed g (ancJoints j l sp) = some K.name
  | [], j, l, g => .inl rfl
  | i :: sp2, j, l, g => by
    rcases hc : childAt l.children i with _ | ⟨j1, l1⟩
    · have hanc : ancJoints j l (i :: sp2) = [j] := by simp [ancJoints, hc]
      rw [hanc]
      by_cases hf : j.type = .FIXED
      · left
        simp [nearestNonFixed, hf]
      · right
        exact ⟨[], j, l, rfl, hf, by simp [nearestNonFixed, hf]⟩
    · have hanc : ancJoints j l (i :: sp2) = j :: ancJoints j1 l1 sp2 := by
        simp [ancJoints, hc]
      rw [hanc, nearestNonFixed_cons]
      rcases nearest_pair_witness sp2 j1 l1
          (if j.type = .FIXED then g else some j.name) with
        hL | ⟨sp0, K, lK, hp0, hKnf, hX⟩
      · rw [hL]
        by_cases hf : j.type = .FIXED
        · left; simp [hf]
        · right
          exact ⟨[], j, l, rfl, hf, by simp [hf]⟩
      · right
        refine ⟨i :: sp0, K, lK, ?_, hKnf, hX⟩
        rw [pairAt_eq_bind, hc]
        simpa using hp0

/-- The nearest non-fixed ancestor of a node of a forest is either the
fallback or a reachable non-fixed node of the forest. -/
theorem nearest_children_witness (p : List Nat) (cs : UrdfChildren)
    (g : Option String) :
    nearestNonFixed g (childrenAncJoints cs p) = g ∨
    ∃ q0 K lK, childrenAt cs q0 = some (K, lK) ∧ K.type ≠ .FIXED ∧
      nearestNonFixed g (childrenAncJoints cs p) = some K.name := by
  cases p with
  | nil => exact .inl rfl
  | cons i sp =>
    rcases hc : childAt cs i with _ | ⟨j1, l1⟩
    · left
      simp [childrenAncJoints, hc, nearestNonFixed]
    · have hanc : childrenAncJoints cs (i :: sp) = ancJoints j1 l1 sp := by
        simp [childrenAncJoints, hc]
      rw [hanc]
      rcases nearest_pair_witness sp j1 l1 g with hL | ⟨sp0, K, lK, hp0, hKnf, hX⟩
      · exact .inl hL
      · right
        refine ⟨i :: sp0, K, lK, ?_, hKnf, hX⟩
        rw [childrenAt_eq_bind, hc]
        simpa using hp0

theorem lt_length_of_getElem?_some {α : Type} {l : List α} {i : Nat} {a : α}
    (h : l[i]? = some a) : i < l.length := by
  by_contra hh
  rw [List.getElem?_eq_none (by omega)] at h
  cases h

/-- Growth corollary with the appended names located in the forest. -/
theorem parseChildren_grow_names (cs : UrdfChildren) (g : Option String)
    (off : SE3) (m M : Model) (h : parseChildren cs g off m = .ok M) :
    ∃ t, M.joints = m.joints ++ t ∧ ∀ e ∈ t, e.name ∈ childrenJointNames cs := by
  obtain ⟨t, ht, hprov⟩ := parseChildren_grow cs g off m M h
  refine ⟨t, ht, ?_⟩
  intro e he
  obtain ⟨p, j', l', hp, hm, -, -⟩ := hprov e he
  exact hm ▸ childrenAt_name_mem p cs j' l' hp

/-! ### The effective parent resolution (spec §4.4 step 1) -/

/-- Main resolution invariant: in a successful run over a forest whose joint
names are fresh, duplicate-free and avoid "root_joint", every non-fixed node
gets exactly one model entry, located by `getJointId` of its name, whose
parent index is the resolution of the nearest non-fixed ancestor (or of the
fallback grand name when every ancestor is fixed). -/
theorem parseChildren_resolution : ∀ (cs : UrdfChildren) (g : Option String)
    (off : SE3) (m M : Model), parseChildren cs g off m = .ok M →
    (∀ n, g = some n → m.getJointId n < m.joints.length) →
    (∀ e ∈ m.joints, e.name ∉ childrenJointNames cs) →
    (childrenJointNames cs).Nodup →
    "root_joint" ∉ childrenJointNames cs →
    ∀ p j' l', childrenAt cs p = some (j', l') → j'.type ≠ .FIXED →
    ∃ e, M.joints[M.getJointId j'.name]? = some e ∧ entryMatches j' e ∧
      e.parent = resolveParent M (nearestNonFixed g (childrenAncJoints cs p))
  | .nil, g, off, m, M, h, hg, hfresh, hnodup, hnr => by
    intro p j' l' hp
    exfalso
    cases p with
    | nil => cases hp
    | cons i sp =>
      rw [childrenAt_eq_bind] at hp
      simp [childAt] at hp
  | .cons j l rest, g, off, m, M, h, hg, hfresh, hnodup, hnr => by
    simp only [parseChildren] at h
    cases hcall : parseLink j l g off m with
    | error e => rw [hcall] at h; cases h
    | ok m1 =>
    rw [hcall] at h
    rw [childrenJointNames_cons] at hnodup hnr
    obtain ⟨hj_notin, htail_nodup⟩ := List.nodup_cons.mp hnodup
    obtain ⟨hlink_nodup, hrest_nodup, hdisj⟩ := List.nodup_append.mp htail_nodup
    have hnr_ne : "root_joint" ≠ j.name := fun hh => hnr (hh ▸ List.mem_cons_self _ _)
    have hnr_link : "root_joint" ∉ linkJointNames l := fun hh =>
      hnr (List.mem_cons_of_mem _ (List.mem_append_left _ hh))
    have hnr_rest : "root_joint" ∉ childrenJointNames rest := fun hh =>
      hnr (List.mem_cons_of_mem _ (List.mem_append_right _ hh))
    have hfresh_j : ∀ e ∈ m.joints, e.name ≠ j.name := by
      intro e he hh
      exact hfresh e he (by rw [childrenJointNames_cons, hh]; exact List.mem_cons_self _ _)
    have hfresh_link : ∀ e ∈ m.joints, e.name ∉ childrenJointNames l.children := by
      intro e he hh
      rw [← linkJointNames_eq] at hh
      exact hfresh e he
        (by rw [childrenJointNames_cons]
            exact List.mem_cons_of_mem _ (List.mem_append_left _ hh))
    have hfresh_rest : ∀ e ∈ m.joints, e.name ∉ childrenJointNames rest := by
      intro e he hh
      exact hfresh e he
        (by rw [childrenJointNames_cons]
            exact List.mem_cons_of_mem _ (List.mem_append_right _ hh))
    have hlink_nodup' : (childrenJointNames l.children).Nodup := by
      rw [← linkJointNames_eq]; exact hlink_nodup
    have hnr_link' : "root_joint" ∉ childrenJointNames l.children := by
      rw [← linkJointNames_eq]; exact hnr_link
    by_cases hnf : j.type = .FIXED
    · -- collapsed fixed head
      rw [parseLink_fixed l g off m hnf] at hcall
      set m2 := (if l.inertial.isSome then
          m.mergeFixedBody (resolveParent m g)
            (off * convertFromUrdfPose j.origin) (linkInertia l)
        else m).addFixedBody (resolveParent m g)
          (off * convertFromUrdfPose j.origin) l.name l.visual with hm2def
      have hm2 : m2.joints = m.joints := by
        rw [hm2def, addFixedBody_joints]
        split <;> [rw [mergeFixedBody_joints]; rfl]
      have hg2 : ∀ n, g = some n → m2.getJointId n < m2.joints.length := by
        intro n hn
        rw [getJointId_congr hm2, hm2]
        exact hg n hn
      have hfresh2 : ∀ e ∈ m2.joints, e.name ∉ childrenJointNames l.children := by
        rw [hm2]; exact hfresh_link
      have IHhead := parseChildren_resolution l.children g
        (off * convertFromUrdfPose j.origin) m2 m1 hcall hg2 hfresh2
        hlink_nodup' hnr_link'
      obtain ⟨t1, ht1, hn1⟩ := parseChildren_grow_names l.children g
        (off * convertFromUrdfPose j.origin) m2 m1 hcall
      rw [hm2] at ht1
      obtain ⟨t2, ht2, hn2⟩ := parseChildren_grow_names rest g off m1 M h
      have hg1 : ∀ n, g = some n → m1.getJointId n < m1.joints.length := by
        intro n hn
        rw [getJointId_append ht1 (hg n hn), ht1]
        calc m.getJointId n < m.joints.length := hg n hn
          _ ≤ (m.joints ++ t1).length := by simp
      have ht2root : ∀ e ∈ t2, e.name ≠ "root_joint" := by
        intro e he hh
        exact hnr_rest (hh ▸ hn2 e he)
      intro p j' l' hp hnf'
      cases p with
      | nil => cases hp
      | cons i sp =>
        cases i with
        | zero =>
          rw [childrenAt_cons_zero] at hp
          cases sp with
          | nil =>
            cases hp
            exact absurd hnf hnf'
          | cons i2 sp2 =>
            rw [pairAt_cons] at hp
            obtain ⟨e, he1, hme, hpar⟩ := IHhead (i2 :: sp2) j' l' hp hnf'
            have hXfound : ∀ n,
                nearestNonFixed g (childrenAncJoints l.children (i2 :: sp2)) = some n →
                m1.getJointId n < m1.joints.length := by
              intro n hn
              rcases nearest_children_witness (i2 :: sp2) l.children g with
                hL | ⟨q0, K, lK, hq0, hKnf, hXeq⟩
              · rw [hL] at hn
                exact hg1 n hn
              · rw [hXeq] at hn
                cases hn
                obtain ⟨eK, heK, -, -⟩ := IHhead q0 K lK hq0 hKnf
                exact lt_length_of_getElem?_some heK
            have hfound1 : m1.getJointId j'.name < m1.joints.length :=
              lt_length_of_getElem?_some he1
            refine ⟨e, ?_, hme, ?_⟩
            · rw [getJointId_append ht2 hfound1, ht2,
                List.getElem?_append_left hfound1]
              exact he1
            · rw [childrenAncJoints_cons_zero, ancJoints_cons_eq,
                nearestNonFixed_cons, if_pos hnf,
                resolveParent_stable ht2 _ hXfound ht2root]
              exact hpar
        | succ i =>
          rw [childrenAt_cons_succ] at hp
          have hfresh1 : ∀ e ∈ m1.joints, e.name ∉ childrenJointNames rest := by
            intro e he
            rw [ht1] at he
            rcases List.mem_append.mp he with he | he
            · exact hfresh_rest e he
            · intro hh
              exact hdisj (linkJointNames_eq l ▸ hn1 e he) hh
          have := parseChildren_resolution rest g off m1 M h hg1 hfresh1
            hrest_nodup hnr_rest (i :: sp) j' l' hp hnf'
          rw [childrenAncJoints_cons_succ]
          exact this
    · -- materialised head
      obtain ⟨yi, hin, k, hk⟩ := parseLink_ok_kind hcall hnf
      rw [parseLink_emit g off m hk hin] at hcall
      set entryJ : JointEntry :=
        ⟨k, resolveParent m g, off * convertFromUrdfPose j.origin,
          j.name, l.name, l.visual,
          (limitVectors j).1, (limitVectors j).2.1,
          (limitVectors j).2.2.1, (limitVectors j).2.2.2⟩ with hentryJ
      set m' := m.addBody (resolveParent m g) k
        (off * convertFromUrdfPose j.origin) (convertFromUrdfInertial yi)
        (limitVectors j).1 (limitVectors j).2.1
        (limitVectors j).2.2.1 (limitVectors j).2.2.2
        j.name l.name l.visual with hmPdef
      have hm' : m'.joints = m.joints ++ [entryJ] := by
        rw [hmPdef, addBody_joints]
      have hAtJ : m'.getJointId j.name = m.joints.length := by
        rw [Model.getJointId, hm', List.findIdx_append]
        have hnotm : m.joints.findIdx (fun e => e.name == j.name) =
            m.joints.length := by
          refine List.findIdx_eq_length_of_false ?_
          intro e he
          simpa using hfresh_j e he
        rw [hnotm]
        simp [List.findIdx_cons, hentryJ]
      have hgetJ : m'.joints[m.joints.length]? = some entryJ := by
        rw [hm', List.getElem?_concat_length]
      have hlenm' : m'.joints.length = m.joints.length + 1 := by
        rw [hm']; simp
      have hg' : ∀ n, some j.name = some n →
          m'.getJointId n < m'.joints.length := by
        intro n hn
        cases hn
        rw [hAtJ, hlenm']
        omega
      have hfresh' : ∀ e ∈ m'.joints, e.name ∉ childrenJointNames l.children := by
        intro e he
        rw [hm'] at he
        rcases List.mem_append.mp he with he | he
        · exact hfresh_link e he
        · rw [List.mem_singleton] at he
          subst he
          rw [hentryJ]
          intro hh
          exact hj_notin (List.mem_append_left _ (linkJointNames_eq l ▸ hh))
      have IHhead := parseChildren_resolution l.children (some j.name) 1 m' m1
        hcall hg' hfresh' hlink_nodup' hnr_link'
      obtain ⟨t1, ht1, hn1⟩ := parseChildren_grow_names l.children (some j.name)
        1 m' m1 hcall
      obtain ⟨t2, ht2, hn2⟩ := parseChildren_grow_names rest g off m1 M h
      have htM : M.joints = m'.joints ++ (t1 ++ t2) := by
        rw [ht2, ht1, List.append_assoc]
      have htMm : M.joints = m.joints ++ (entryJ :: (t1 ++ t2)) := by
        rw [htM, hm']; simp
      have hMroot : ∀ e ∈ entryJ :: (t1 ++ t2), e.name ≠ "root_joint" := by
        intro e he hh
        rcases List.mem_cons.mp he with he | he
        · subst he
          exact hnr_ne hh.symm
        · rcases List.mem_append.mp he with he | he
          · exact hnr_link' (hh ▸ hn1 e he)
          · exact hnr_rest (hh ▸ hn2 e he)
      have ht2root : ∀ e ∈ t2, e.name ≠ "root_joint" := by
        intro e he hh
        exact hnr_rest (hh ▸ hn2 e he)
      have hfoundJ1 : m1.getJointId j.name < m1.joints.length := by
        rw [getJointId_append ht1 (by rw [hAtJ, hlenm']; omega), ht1, hAtJ]
        calc m.joints.length < m'.joints.length := by rw [hlenm']; omega
          _ ≤ (m'.joints ++ t1).length := by simp
      intro p j' l' hp hnf'
      cases p with
      | nil => cases hp
      | cons i sp =>
        cases i with
        | zero =>
          rw [childrenAt_cons_zero] at hp
          cases sp with
          | nil =>
            cases hp
            refine ⟨entryJ, ?_, ?_, ?_⟩
            · have hfoundJ' : m'.getJointId j.name < m'.joints.length := by
                rw [hAtJ, hlenm']; omega
              rw [getJointId_append htM hfoundJ', hAtJ, htM,
                List.getElem?_append_left (by rw [hlenm']; omega)]
              exact hgetJ
            · exact ⟨rfl, hk, limitVectors_eta j⟩
            · rw [childrenAncJoints_cons_zero]
              show entryJ.parent =
                resolveParent M (nearestNonFixed g (ancJoints j l []))
              rw [show ancJoints j l [] = [] from rfl, nearestNonFixed_nil,
                resolveParent_stable htMm g hg hMroot]
          | cons i2 sp2 =>
            rw [pairAt_cons] at hp
            obtain ⟨e, he1, hme, hpar⟩ := IHhead (i2 :: sp2) j' l' hp hnf'
            have hXfound : ∀ n,
                nearestNonFixed (some j.name)
                  (childrenAncJoints l.children (i2 :: sp2)) = some n →
                m1.getJointId n < m1.joints.length := by
              intro n hn
              rcases nearest_children_witness (i2 :: sp2) l.children
                  (some j.name) with hL | ⟨q0, K, lK, hq0, hKnf, hXeq⟩
              · rw [hL] at hn
                cases hn
                exact hfoundJ1
              · rw [hXeq] at hn
                cases hn
                obtain ⟨eK, heK, -, -⟩ := IHhead q0 K lK hq0 hKnf
                exact lt_length_of_getElem?_some heK
            have hfound1 : m1.getJointId j'.name < m1.joints.length :=
              lt_length_of_getElem?_some he1
            refine ⟨e, ?_, hme, ?_⟩
            · rw [getJointId_append ht2 hfound1, ht2,
                List.getElem?_append_left hfound1]
              exact he1
            · rw [childrenAncJoints_cons_zero, ancJoints_cons_eq,
                nearestNonFixed_cons, if_neg hnf,
                resolveParent_stable ht2 _ hXfound ht2root]
              exact hpar
        | succ i =>
          rw [childrenAt_cons_succ] at hp
          have hg1 : ∀ n, g = some n → m1.getJointId n < m1.joints.length := by
            intro n hn
            have hfm : m.getJointId n < m.joints.length := hg n hn
            have hfm' : m'.getJointId n < m'.joints.length := by
              rw [getJointId_append (t := [entryJ]) hm' hfm, hlenm']
              omega
            rw [getJointId_append ht1 hfm', ht1]
            calc m'.getJointId n < m'.joints.length := hfm'
              _ ≤ (m'.joints ++ t1).length := by simp
          have hfresh1 : ∀ e ∈ m1.joints, e.name ∉ childrenJointNames rest := by
            intro e he
            rw [ht1] at he
            rcases List.mem_append.mp he with he | he
            · rw [hm'] at he
              rcases List.mem_append.mp he with he | he
              · exact hfresh_rest e he
              · rw [List.mem_singleton] at he
                subst he
                intro hh
                exact hj_notin (List.mem_append_right _ hh)
            · intro hh
              exact hdisj (linkJointNames_eq l ▸ hn1 e he) hh
          have := parseChildren_resolution rest g off m1 M h hg1 hfresh1
            hrest_nodup hnr_rest (i :: sp) j' l' hp hnf'
          rw [childrenAncJoints_cons_succ]
          exact this
termination_by cs _ _ _ _ _ _ _ _ _ => sizeOf cs
decreasing_by
  all_goals simp_wf
  all_goals first
    | exact sizeOf_lt_cons_rest j l rest
    | exact Nat.lt_trans (sizeOf_children_lt l) (sizeOf_lt_cons_link j l rest)

/-! ### Mass bookkeeping (spec P2, I6) -/

theorem act_mass (pl : SE3) (y : Inertia) : (pl.act y).mass = y.mass := rfl

theorem add_mass (a b : Inertia) : (a.add b).mass = a.mass + b.mass := rfl

theorem totalMass_addBody (m : Model) (parent : Nat) (kind : JointModel)
    (pl : SE3) (y : Inertia) (me ve lo up : List Scalar)
    (jn bn : String) (hv : Bool) :
    (m.addBody parent kind pl y me ve lo up jn bn hv).totalMass =
      m.totalMass + y.mass := by
  simp [Model.totalMass, Model.addBody]

theorem totalMass_addFixedBody (m : Model) (parent : Nat) (pl : SE3)
    (bn : String) (hv : Bool) :
    (m.addFixedBody parent pl bn hv).totalMass = m.totalMass := rfl

theorem massSum_set : ∀ (L : List Inertia) (i : Nat) (a : Inertia),
    i < L.length →
    ((L.set i a).map Inertia.mass).sum =
      (L.map Inertia.mass).sum - (L.getD i Inertia.zero).mass + a.mass
  | [], i, a, h => by simp at h
  | x :: Ls, 0, a, h => by
    simp [List.set]
    ring
  | x :: Ls, i + 1, a, h => by
    simp only [List.set, List.map_cons, List.sum_cons, List.getD_cons_succ]
    rw [massSum_set Ls i a (by simpa using h)]
    ring

theorem totalMass_mergeFixedBody (m : Model) (p : Nat) (pl : SE3)
    (y : Inertia) (hp : p < m.inertias.length) :
    (m.mergeFixedBody p pl y).totalMass = m.totalMass + y.mass := by
  rw [Model.totalMass, Model.mergeFixedBody]
  simp only
  rw [massSum_set m.inertias p _ hp, add_mass, act_mass]
  rw [Model.totalMass]
  ring

theorem inertias_length_addBody (m : Model) (parent : Nat) (kind : JointModel)
    (pl : SE3) (y : Inertia) (me ve lo up : List Scalar)
    (jn bn : String) (hv : Bool) :
    (m.addBody parent kind pl y me ve lo up jn bn hv).inertias.length =
      m.inertias.length + 1 := by
  simp [Model.addBody]

theorem inertias_length_mergeFixedBody (m : Model) (p : Nat) (pl : SE3)
    (y : Inertia) :
    (m.mergeFixedBody p pl y).inertias.length = m.inertias.length := by
  simp [Model.mergeFixedBody]

theorem inertias_addFixedBody (m : Model) (parent : Nat) (pl : SE3)
    (bn : String) (hv : Bool) :
    (m.addFixedBody parent pl bn hv).inertias = m.inertias := rfl

theorem linkMassSum_eq (l : UrdfLink) :
    linkMassSum l =
      (match l.inertial with | some yi => yi.mass | none => 0) +
        childrenMassSum l.children := by
  cases l with
  | mk n i v cs => rfl

/-- Mass conservation over a forest: a successful run adds exactly the sum of
the `<inertial>` masses of the forest's links to the model's total mass.
The hypotheses mirror the resolution invariant: the grand name (when
present) is found, the model is nonempty, and the inertia list is parallel
to the joint list. -/
theorem parseChildren_mass : ∀ (cs : UrdfChildren) (g : Option String)
    (off : SE3) (m M : Model), parseChildren cs g off m = .ok M →
    (∀ n, g = some n → m.getJointId n < m.joints.length) →
    1 ≤ m.joints.length →
    m.inertias.length = m.joints.length →
    M.totalMass = m.totalMass + childrenMassSum cs ∧
      M.inertias.length = M.joints.length
  | .nil, g, off, m, M, h, hg, h1, hlen => by
    simp only [parseChildren] at h
    cases h
    exact ⟨by rw [childrenMassSum]; ring, hlen⟩
  | .cons j l rest, g, off, m, M, h, hg, h1, hlen => by
    simp only [parseChildren] at h
    cases hcall : parseLink j l g off m with
    | error e => rw [hcall] at h; cases h
    | ok m1 =>
    rw [hcall] at h
    have hstep : m1.totalMass = m.totalMass + linkMassSum l ∧
        (∀ n, g = some n → m1.getJointId n < m1.joints.length) ∧
        1 ≤ m1.joints.length ∧ m1.inertias.length = m1.joints.length := by
      by_cases hnf : j.type = .FIXED
      · rw [parseLink_fixed l g off m hnf] at hcall
        set m2 := (if l.inertial.isSome then
            m.mergeFixedBody (resolveParent m g)
              (off * convertFromUrdfPose j.origin) (linkInertia l)
          else m).addFixedBody (resolveParent m g)
            (off * convertFromUrdfPose j.origin) l.name l.visual with hm2def
        have hm2j : m2.joints = m.joints := by
          rw [hm2def, addFixedBody_joints]
          split <;> [rw [mergeFixedBody_joints]; rfl]
        have hm2len : m2.inertias.length = m.inertias.length := by
          rw [hm2def, inertias_addFixedBody]
          split <;> [rw [inertias_length_mergeFixedBody]; rfl]
        have hm2mass : m2.totalMass = m.totalMass +
            (match l.inertial with | some yi => yi.mass | none => 0) := by
          rw [hm2def]
          have : (Model.addFixedBody _ (resolveParent m g)
              (off * convertFromUrdfPose j.origin) l.name l.visual).totalMass =
              (if l.inertial.isSome then
                m.mergeFixedBody (resolveParent m g)
                  (off * convertFromUrdfPose j.origin) (linkInertia l)
              else m).totalMass := totalMass_addFixedBody _ _ _ _ _
          rw [this]
          cases hin : l.inertial with
          | none => simp [hin]
          | some yi =>
            rw [if_pos (by simp [hin])]
            rw [totalMass_mergeFixedBody m _ _ _
              (by rw [hlen]; exact resolveParent_lt m g hg h1)]
            simp only [linkInertia, hin]
            rfl
        have hg2 : ∀ n, g = some n → m2.getJointId n < m2.joints.length := by
          intro n hn
          rw [getJointId_congr hm2j, hm2j]
          exact hg n hn
        obtain ⟨hmass1, hlen1⟩ := parseChildren_mass l.children g
          (off * convertFromUrdfPose j.origin) m2 m1 hcall hg2
          (by rw [hm2j]; exact h1) (by rw [hm2len, hm2j, hlen])
        obtain ⟨t1, ht1, -⟩ := parseChildren_grow_names l.children g
          (off * convertFromUrdfPose j.origin) m2 m1 hcall
        rw [hm2j] at ht1
        refine ⟨?_, ?_, ?_, hlen1⟩
        · rw [hmass1, hm2mass, linkMassSum_eq l]
          ring
        · intro n hn
          rw [getJointId_append ht1 (hg n hn), ht1]
          calc m.getJointId n < m.joints.length := hg n hn
            _ ≤ (m.joints ++ t1).length := by simp
        · rw [ht1, List.length_append]
          omega
      · obtain ⟨yi, hin, k, hk⟩ := parseLink_ok_kind hcall hnf
        rw [parseLink_emit g off m hk hin] at hcall
        set m' := m.addBody (resolveParent m g) k
          (off * convertFromUrdfPose j.origin) (convertFromUrdfInertial yi)
          (limitVectors j).1 (limitVectors j).2.1
          (limitVectors j).2.2.1 (limitVectors j).2.2.2
          j.name l.name l.visual with hmPdef
        have hm' : m'.joints = m.joints ++
            [⟨k, resolveParent m g, off * convertFromUrdfPose j.origin,
              j.name, l.name, l.visual,
              (limitVectors j).1, (limitVectors j).2.1,
              (limitVectors j).2.2.1, (limitVectors j).2.2.2⟩] := by
          rw [hmPdef, addBody_joints]
        have hmass' : m'.totalMass = m.totalMass + yi.mass := by
          rw [hmPdef, totalMass_addBody]
          rfl
        have hlen' : m'.inertias.length = m'.joints.length := by
          rw [hmPdef, inertias_length_addBody, addBody_joints,
            List.length_append, hlen]
          rfl
        have h1' : 1 ≤ m'.joints.length := by
          rw [hm', List.length_append]
          omega
        have hgj : m'.getJointId j.name < m'.joints.length := by
          refine getJointId_lt_of_mem
            ⟨⟨k, resolveParent m g, off * convertFromUrdfPose j.origin,
              j.name, l.name, l.visual,
              (limitVectors j).1, (limitVectors j).2.1,
              (limitVectors j).2.2.1, (limitVectors j).2.2.2⟩, ?_, rfl⟩
          rw [hm']
          exact List.mem_append_right _ (List.mem_singleton_self _)
        obtain ⟨hmass1, hlen1⟩ := parseChildren_mass l.children (some j.name)
          1 m' m1 hcall (by intro n hn; cases hn; exact hgj) h1' hlen'
        obtain ⟨t1, ht1, -⟩ := parseChildren_grow_names l.children (some j.name)
          1 m' m1 hcall
        refine ⟨?_, ?_, ?_, hlen1⟩
        · rw [hmass1, hmass', linkMassSum_eq l, hin]
          ring
        · intro n hn
          have hfm' : m'.getJointId n < m'.joints.length := by
            rw [getJointId_append (t := [_]) hm' (hg n hn), hm',
              List.length_append]
            calc m.getJointId n < m.joints.length := hg n hn
              _ ≤ m.joints.length + [(⟨k, resolveParent m g,
                  off * convertFromUrdfPose j.origin, j.name, l.name, l.visual,
                  (limitVectors j).1, (limitVectors j).2.1,
                  (limitVectors j).2.2.1, (limitVectors j).2.2.2⟩ :
                    JointEntry)].length := by omega
          rw [getJointId_append ht1 hfm', ht1]
          calc m'.getJointId n < m'.joints.length := hfm'
            _ ≤ (m'.joints ++ t1).length := by simp
        · rw [ht1, List.length_append]
          omega
    obtain ⟨hmass1, hg1, h11, hlen1⟩ := hstep
    obtain ⟨hmassM, hlenM⟩ := parseChildren_mass rest g off m1 M h hg1 h11 hlen1
    refine ⟨?_, hlenM⟩
    rw [hmassM, hmass1, childrenMassSum]
    ring
termination_by cs _ _ _ _ _ _ _ _ => sizeOf cs
decreasing_by
  all_goals simp_wf
  all_goals first
    | exact sizeOf_lt_cons_rest j l rest
    | exact Nat.lt_trans (sizeOf_children_lt l) (sizeOf_lt_cons_link j l rest)

/-! ### Step inversion and the missing-inertia error analysis (spec §7) -/

/-- Exhaustive classification of one `parseLink` step. -/
theorem parseLink_cases (j : UrdfJoint) (l : UrdfLink) (g : Option String)
    (off : SE3) (m : Model) :
    (l.inertial = none ∧ j.type ≠ .FIXED ∧
      parseLink j l g off m =
        .error (.missingInertia (l.name ++ " - spatial inertia information missing."))) ∨
    (j.type = .FIXED ∧
      parseLink j l g off m =
        parseChildren l.children g (off * convertFromUrdfPose j.origin)
          ((if l.inertial.isSome then
              m.mergeFixedBody (resolveParent m g)
                (off * convertFromUrdfPose j.origin) (linkInertia l)
            else m).addFixedBody (resolveParent m g)
              (off * convertFromUrdfPose j.origin) l.name l.visual)) ∨
    (∃ yi k, l.inertial = some yi ∧ emittedKind j = some k ∧
      parseLink j l g off m =
        parseChildren l.children (some j.name) 1
          (m.addBody (resolveParent m g) k (off * convertFromUrdfPose j.origin)
            (convertFromUrdfInertial yi)
            (limitVectors j).1 (limitVectors j).2.1
            (limitVectors j).2.2.1 (limitVectors j).2.2.2
            j.name l.name l.visual)) ∨
    (∃ msg, parseLink j l g off m = .error (.unsupportedJointType msg)) := by
  by_cases hnf : j.type = .FIXED
  · exact .inr (.inl ⟨hnf, parseLink_fixed l g off m hnf⟩)
  · cases hin : l.inertial with
    | none => exact .inl ⟨rfl, hnf, parseLink_missingInertia g off m hin hnf⟩
    | some yi =>
      cases hjt : j.type with
      | FIXED => exact absurd hjt hnf
      | OTHER =>
        exact .inr (.inr (.inr ⟨_, parseLink_otherType g off m hjt (by simp [hin])⟩))
      | REVOLUTE =>
        cases hax : extractCartesianAxis j.axis with
        | AXIS_X =>
          exact .inr (.inr (.inl ⟨yi, .RX, rfl,
            by simp [emittedKind, hjt, hax],
            parseLink_emit g off m (by simp [emittedKind, hjt, hax]) hin⟩))
        | AXIS_Y =>
          exact .inr (.inr (.inl ⟨yi, .RY, rfl,
            by simp [emittedKind, hjt, hax],
            parseLink_emit g off m (by simp [emittedKind, hjt, hax]) hin⟩))
        | AXIS_Z =>
          exact .inr (.inr (.inl ⟨yi, .RZ, rfl,
            by simp [emittedKind, hjt, hax],
            parseLink_emit g off m (by simp [emittedKind, hjt, hax]) hin⟩))
        | AXIS_UNALIGNED =>
          exact .inr (.inr (.inl ⟨yi, .revoluteUnaligned (normalizeAxis j.axis),
            rfl, by simp [emittedKind, hjt, hax],
            parseLink_emit g off m (by simp [emittedKind, hjt, hax]) hin⟩))
      | CONTINUOUS =>
        cases hax : extractCartesianAxis j.axis with
        | AXIS_X =>
          exact .inr (.inr (.inl ⟨yi, .RX, rfl,
            by simp [emittedKind, hjt, hax],
            parseLink_emit g off m (by simp [emittedKind, hjt, hax]) hin⟩))
        | AXIS_Y =>
          exact .inr (.inr (.inl ⟨yi, .RY, rfl,
            by simp [emittedKind, hjt, hax],
            parseLink_emit g off m (by simp [emittedKind, hjt, hax]) hin⟩))
        | AXIS_Z =>
          exact .inr (.inr (.inl ⟨yi, .RZ, rfl,
            by simp [emittedKind, hjt, hax],
            parseLink_emit g off m (by simp [emittedKind, hjt, hax]) hin⟩))
        | AXIS_UNALIGNED =>
          exact .inr (.inr (.inl ⟨yi, .revoluteUnaligned (normalizeAxis j.axis),
            rfl, by simp [emittedKind, hjt, hax],
            parseLink_emit g off m (by simp [emittedKind, hjt, hax]) hin⟩))
      | PRISMATIC =>
        cases hax : extractCartesianAxis j.axis with
        | AXIS_X =>
          exact .inr (.inr (.inl ⟨yi, .PX, rfl,
            by simp [emittedKind, hjt, hax],
            parseLink_emit g off m (by simp [emittedKind, hjt, hax]) hin⟩))
        | AXIS_Y =>
          exact .inr (.inr (.inl ⟨yi, .PY, rfl,
            by simp [emittedKind, hjt, hax],
            parseLink_emit g off m (by simp [emittedKind, hjt, hax]) hin⟩))
        | AXIS_Z =>
          exact .inr (.inr (.inl ⟨yi, .PZ, rfl,
            by simp [emittedKind, hjt, hax],
            parseLink_emit g off m (by simp [emittedKind, hjt, hax]) hin⟩))
        | AXIS_UNALIGNED =>
          exact .inr (.inr (.inr ⟨_,
            parseLink_prismaticUnaligned g off m hjt hax (by simp [hin])⟩))

/-- In a successful run every link attached by a non-fixed joint carries an
inertial block. -/
theorem parseChildren_ok_inertial : ∀ (cs : UrdfChildren) (g : Option String)
    (off : SE3) (m M : Model), parseChildren cs g off m = .ok M →
    ∀ p j' l', childrenAt cs p = some (j', l') → j'.type ≠ .FIXED →
      l'.inertial.isSome = true
  | .nil, g, off, m, M, h => by
    intro p j' l' hp
    exfalso
    cases p with
    | nil => cases hp
    | cons i sp =>
      rw [childrenAt_eq_bind] at hp
      simp [childAt] at hp
  | .cons j l rest, g, off, m, M, h => by
    simp only [parseChildren] at h
    cases hcall : parseLink j l g off m with
    | error e => rw [hcall] at h; cases h
    | ok m1 =>
    rw [hcall] at h
    intro p j' l' hp hnf'
    cases p with
    | nil => cases hp
    | cons i sp =>
      cases i with
      | zero =>
        rw [childrenAt_cons_zero] at hp
        cases sp with
        | nil =>
          cases hp
          obtain ⟨yi, hin, -⟩ := parseLink_ok_kind hcall hnf'
          simp [hin]
        | cons i2 sp2 =>
          rw [pairAt_cons] at hp
          rcases parseLink_cases j l g off m with
            ⟨-, -, herr⟩ | ⟨-, heq⟩ | ⟨yi, k, -, -, heq⟩ | ⟨msg, herr⟩
          · rw [herr] at hcall; cases hcall
          · rw [heq] at hcall
            exact parseChildren_ok_inertial l.children g _ _ m1 hcall
              (i2 :: sp2) j' l' hp hnf'
          · rw [heq] at hcall
            exact parseChildren_ok_inertial l.children (some j.name) 1 _ m1
              hcall (i2 :: sp2) j' l' hp hnf'
          · rw [herr] at hcall; cases hcall
      | succ i =>
        rw [childrenAt_cons_succ] at hp
        exact parseChildren_ok_inertial rest g off m1 M h (i :: sp) j' l' hp hnf'
termination_by cs _ _ _ _ _ => sizeOf cs
decreasing_by
  all_goals simp_wf
  all_goals first
    | exact sizeOf_lt_cons_rest j l rest
    | exact Nat.lt_trans (sizeOf_children_lt l) (sizeOf_lt_cons_link j l rest)

/-- A `MissingInertia` failure originates at a link attached by a non-fixed
joint with no inertial block, and the message names that link. -/
theorem parseChildren_err_missing : ∀ (cs : UrdfChildren) (g : Option String)
    (off : SE3) (m : Model) (s : String),
    parseChildren cs g off m = .error (.missingInertia s) →
    ∃ p j' l', childrenAt cs p = some (j', l') ∧ j'.type ≠ .FIXED ∧
      l'.inertial = none ∧
      s = l'.name ++ " - spatial inertia information missing."
  | .nil, g, off, m, s, h => by
    simp only [parseChildren] at h
    cases h
  | .cons j l rest, g, off, m, s, h => by
    simp only [parseChildren] at h
    cases hcall : parseLink j l g off m with
    | error e =>
      rw [hcall] at h
      cases h
      rcases parseLink_cases j l g off m with
        ⟨hin, hnf, herr⟩ | ⟨-, heq⟩ | ⟨yi, k, -, -, heq⟩ | ⟨msg, herr⟩
      · rw [herr] at hcall
        cases hcall
        exact ⟨[0], j, l, by rw [childrenAt_cons_zero]; rfl, hnf, hin, rfl⟩
      · rw [heq] at hcall
        obtain ⟨p', j', l', hp', hnf', hin', hs⟩ :=
          parseChildren_err_missing l.children g _ _ _ hcall
        match p', hp' with
        | i2 :: sp2, hp' =>
          exact ⟨0 :: i2 :: sp2, j', l',
            by rw [childrenAt_cons_zero, pairAt_cons]; exact hp', hnf', hin', hs⟩
      · rw [heq] at hcall
        obtain ⟨p', j', l', hp', hnf', hin', hs⟩ :=
          parseChildren_err_missing l.children (some j.name) 1 _ _ hcall
        match p', hp' with
        | i2 :: sp2, hp' =>
          exact ⟨0 :: i2 :: sp2, j', l',
            by rw [childrenAt_cons_zero, pairAt_cons]; exact hp', hnf', hin', hs⟩
      · rw [herr] at hcall
        cases hcall
    | ok m1 =>
      rw [hcall] at h
      obtain ⟨p', j', l', hp', hnf', hin', hs⟩ :=
        parseChildren_err_missing rest g off m1 s h
      match p', hp' with
      | i :: sp, hp' =>
        exact ⟨(i + 1) :: sp, j', l',
          by rw [childrenAt_cons_succ]; exact hp', hnf', hin', hs⟩
termination_by cs _ _ _ _ _ => sizeOf cs
decreasing_by
  all_goals simp_wf
  all_goals first
    | exact sizeOf_lt_cons_rest j l rest
    | exact Nat.lt_trans (sizeOf_children_lt l) (sizeOf_lt_cons_link j l rest)

/-! ### Claim theorems -/

/-- C1: for every URDF input on which compilation succeeds, the built model
satisfies `parents[i] < i` for every joint index `i ≥ 1`, in both the
fixed-root and the explicit-root-joint entry modes, fixed joints included. -/
theorem claimC1 (root : UrdfLink) :
    (∀ M, parseTreeFixed root = .ok M →
      ∀ i e, M.joints[i]? = some e → 1 ≤ i → e.parent < i) ∧
    (∀ (rootJoint : JointModel) (off : SE3) M,
      parseTreeRootJoint rootJoint off root = .ok M →
      ∀ i e, M.joints[i]? = some e → 1 ≤ i → e.parent < i) := by
  have hLT0 : ParentsLT initialModel := by
    intro i e hi h1
    match i, h1 with
    | i + 1, _ => simp [initialModel] at hi
  constructor
  · intro M h i e hi h1
    refine parseChildren_parentsLT root.children none 1 initialModel M h
      ?_ ?_ hLT0 i e hi h1
    · intro n hn; cases hn
    · simp [initialModel]
  · intro rootJoint off M h i e hi h1
    simp only [parseTreeRootJoint] at h
    refine parseChildren_parentsLT root.children none 1 _ M h
      ?_ ?_ ?_ i e hi h1
    · intro n hn; cases hn
    · simp [Model.addBody, initialModel]
    · exact parentsLT_addBody hLT0 (by simp [initialModel]) _ _ _ _ _ _ _ _ _ _

/-- Witness for C1 at the two-link revolute chain, in both entry modes. -/
theorem claimC1_witness :
    (entryAt (parseTreeFixed sampleChain) 1).parent < 1 ∧
    (entryAt (parseTreeRootJoint .freeFlyer 1 sampleChain) 2).parent < 2 := by
  constructor
  · have h : parseTreeFixed sampleChain =
        .ok (okModel (parseTreeFixed sampleChain)) := rfl
    have hget : (okModel (parseTreeFixed sampleChain)).joints[1]? =
        some (entryAt (parseTreeFixed sampleChain) 1) := rfl
    exact (claimC1 sampleChain).1 _ h 1 _ hget (by omega)
  · have h : parseTreeRootJoint .freeFlyer 1 sampleChain =
        .ok (okModel (parseTreeRootJoint .freeFlyer 1 sampleChain)) := rfl
    have hget : (okModel (parseTreeRootJoint .freeFlyer 1 sampleChain)).joints[2]? =
        some (entryAt (parseTreeRootJoint .freeFlyer 1 sampleChain) 2) := rfl
    exact (claimC1 sampleChain).2 .freeFlyer 1 _ h 2 _ hget (by omega)

/-- Counterexample to C2 as stated: in fixed-root mode (no explicit root
joint), the second child "lB" of the root has a URDF parent link whose parent
joint is null, so the claim requires `p = 0`; but because the first URDF
joint of the tree is itself named "root_joint", the name lookup of urdf.hpp
line 143 resolves `p = 1`. -/
theorem claimC2_counterexample :
    childAt cexRootName.children 1 = some (jB, lB) ∧
    jB.type = .REVOLUTE ∧
    isErr (parseTreeFixed cexRootName) = false ∧
    (entryAt (parseTreeFixed cexRootName) 2).name = "jB" ∧
    (entryAt (parseTreeFixed cexRootName) 2).parent = 1 ∧
    (1 : Nat) ≠ 0 :=
  ⟨rfl, rfl, rfl, rfl, rfl, by omega⟩

/-- C2 (amended): the effective parent joint index is resolved from the
nearest non-fixed ancestor in the URDF tree; when every ancestor joint is
fixed (or the link hangs off the root), the parent is the index of the model
joint named "root_joint" when one exists — the explicit root joint's index 1
in explicit-root mode — and 0 otherwise; chains of consecutive fixed joints
resolve to the nearest non-fixed ancestor.  Requires the URDF joint names to
be duplicate-free and to avoid the reserved names "root_joint" and
"universe". -/
theorem claimC2 (root : UrdfLink) :
    (∀ M (p : List Nat) j' l',
      "root_joint" ∉ childrenJointNames root.children →
      "universe" ∉ childrenJointNames root.children →
      (childrenJointNames root.children).Nodup →
      parseTreeFixed root = .ok M →
      rootAt root p = some (j', l') → j'.type ≠ .FIXED →
      ∃ e, M.joints[M.getJointId j'.name]? = some e ∧ e.name = j'.name ∧
        e.parent = (match nearestNonFixed none (rootAncJoints root p) with
          | none => 0
          | some nm => M.getJointId nm)) ∧
    (∀ (rootJoint : JointModel) (off : SE3) M (p : List Nat) j' l',
      "root_joint" ∉ childrenJointNames root.children →
      "universe" ∉ childrenJointNames root.children →
      (childrenJointNames root.children).Nodup →
      parseTreeRootJoint rootJoint off root = .ok M →
      rootAt root p = some (j', l') → j'.type ≠ .FIXED →
      ∃ e, M.joints[M.getJointId j'.name]? = some e ∧ e.name = j'.name ∧
        e.parent = (match nearestNonFixed none (rootAncJoints root p) with
          | none => 1
          | some nm => M.getJointId nm)) := by
  constructor
  · intro M p j' l' hnr hnu hnodup h hp hnf
    have hfresh : ∀ e ∈ initialModel.joints,
        e.name ∉ childrenJointNames root.children := by
      intro e he
      simp only [initialModel, List.mem_singleton] at he
      subst he
      exact hnu
    obtain ⟨e, he, hme, hpar⟩ := parseChildren_resolution root.children none 1
      initialModel M h (by intro n hn; cases hn) hfresh hnodup hnr
      p j' l' hp hnf
    obtain ⟨t, ht, htn⟩ := parseChildren_grow_names root.children none 1
      initialModel M h
    refine ⟨e, he, hme.1, ?_⟩
    rw [hpar]
    show resolveParent M (nearestNonFixed none (rootAncJoints root p)) = _
    cases hX : nearestNonFixed none (rootAncJoints root p) with
    | some nm => rfl
    | none =>
      have hex : M.existJointName "root_joint" = false := by
        rw [existJointName_append ht (by intro e' he' hh; exact hnr (hh ▸ htn e' he'))]
        rfl
      simp [resolveParent, hex]
  · intro rootJoint off M p j' l' hnr hnu hnodup h hp hnf
    simp only [parseTreeRootJoint] at h
    set m0 := initialModel.addBody 0 rootJoint off
      (match root.inertial with
        | some yi => convertFromUrdfInertial yi
        | none => Inertia.identity) [] [] [] [] "root_joint" root.name true
      with hm0def
    have hm0joints : m0.joints =
      [⟨.universe, 0, 1, "universe", "universe", false, [], [], [], []⟩,
       ⟨rootJoint, 0, off,
        "root_joint", root.name, true, [], [], [], []⟩] := rfl
    have hfresh : ∀ e ∈ m0.joints,
        e.name ∉ childrenJointNames root.children := by
      intro e he
      rw [hm0joints] at he
      rcases List.mem_cons.mp he with he | he
      · subst he; exact hnu
      · rw [List.mem_singleton] at he
        subst he
        exact hnr
    have hid0 : m0.getJointId "root_joint" = 1 := by
      rw [Model.getJointId, hm0joints]
      rfl
    obtain ⟨e, he, hme, hpar⟩ := parseChildren_resolution root.children none 1
      m0 M h (by intro n hn; cases hn) hfresh hnodup hnr p j' l' hp hnf
    obtain ⟨t, ht, htn⟩ := parseChildren_grow_names root.children none 1 m0 M h
    refine ⟨e, he, hme.1, ?_⟩
    rw [hpar]
    show resolveParent M (nearestNonFixed none (rootAncJoints root p)) = _
    cases hX : nearestNonFixed none (rootAncJoints root p) with
    | some nm => rfl
    | none =>
      have hex : M.existJointName "root_joint" = true := by
        rw [existJointName_append ht (by intro e' he' hh; exact hnr (hh ▸ htn e' he'))]
        rfl
      have hfound : m0.getJointId "root_joint" < m0.joints.length := by
        rw [hid0, hm0joints]
        simp
      simp only [resolveParent, hex, if_pos]
      rw [getJointId_append ht hfound, hid0]

/-- Witness for C2 (amended) at the fixed-joint chain, in both entry modes:
the joint "j2" sits below the collapsed fixed joint "jf", so its nearest
non-fixed ancestor chain is empty and its parent resolves to 0 (fixed root)
and to 1 (explicit root joint). -/
theorem claimC2_witness :
    (entryAt (parseTreeFixed wChainFixed)
      ((okModel (parseTreeFixed wChainFixed)).getJointId "j2")).parent = 0 ∧
    (entryAt (parseTreeRootJoint .freeFlyer 1 wChainFixed)
      ((okModel (parseTreeRootJoint .freeFlyer 1 wChainFixed)).getJointId
        "j2")).parent = 1 := by
  constructor
  · obtain ⟨e, he, hn, hpar⟩ := (claimC2 wChainFixed).1
      (okModel (parseTreeFixed wChainFixed)) [0, 0] j2 l2
      (by decide) (by decide) (by decide) rfl rfl (by decide)
    have : entryAt (parseTreeFixed wChainFixed)
        ((okModel (parseTreeFixed wChainFixed)).getJointId "j2") = e := by
      rw [entryAt, show ("j2" : String) = j2.name from rfl, he]
      rfl
    rw [this, hpar]
    rfl
  · obtain ⟨e, he, hn, hpar⟩ := (claimC2 wChainFixed).2 .freeFlyer 1
      (okModel (parseTreeRootJoint .freeFlyer 1 wChainFixed)) [0, 0] j2 l2
      (by decide) (by decide) (by decide) rfl rfl (by decide)
    have : entryAt (parseTreeRootJoint .freeFlyer 1 wChainFixed)
        ((okModel (parseTreeRootJoint .freeFlyer 1 wChainFixed)).getJointId
          "j2") = e := by
      rw [entryAt, show ("j2" : String) = j2.name from rfl, he]
      rfl
    rw [this, hpar]
    rfl

/-- C3: a link attached by a FIXED joint is collapsed — no `addBody` call is
made for it (and, globally, every joint entry of a built model traces back
to a non-fixed URDF joint); `mergeFixedBody(p, jointPlacement, Y)` happens
exactly when the link has an inertial block; one `fixedBodies` entry is
appended through `addFixedBody(p, nextPlacementOffset, name, visual)` with
`nextPlacementOffset = placementOffset · convert(J.origin)`; the children
recurse with that accumulated offset, while materialised (non-fixed) joints
recurse with the identity offset. -/
theorem claimC3 :
    (∀ (j : UrdfJoint) (l : UrdfLink) (g : Option String) (off : SE3)
      (m : Model), j.type = .FIXED →
      parseLink j l g off m =
        parseChildren l.children g (off * convertFromUrdfPose j.origin)
          ((if l.inertial.isSome then
              m.mergeFixedBody (resolveParent m g)
                (off * convertFromUrdfPose j.origin) (linkInertia l)
            else m).addFixedBody (resolveParent m g)
              (off * convertFromUrdfPose j.origin) l.name l.visual)) ∧
    (∀ (m : Model) (p : Nat) (pl nOff : SE3) (y : Inertia) (bn : String)
      (hv : Bool),
      ((m.mergeFixedBody p pl y).addFixedBody p nOff bn hv).fixedBodies =
        m.fixedBodies ++ [⟨p, nOff, bn, hv⟩] ∧
      (m.addFixedBody p nOff bn hv).fixedBodies =
        m.fixedBodies ++ [⟨p, nOff, bn, hv⟩] ∧
      (m.mergeFixedBody p pl y).joints = m.joints ∧
      (m.addFixedBody p nOff bn hv).joints = m.joints) ∧
    (∀ root M, parseTreeFixed root = .ok M →
      ∀ e ∈ M.joints, e.name = "universe" ∨
        ∃ p j' l', rootAt root p = some (j', l') ∧ j'.type ≠ .FIXED ∧
          e.name = j'.name) ∧
    (∀ (j : UrdfJoint) (l : UrdfLink) (g : Option String) (off : SE3)
      (m : Model) (yi : UrdfInertial) (k : JointModel),
      emittedKind j = some k → l.inertial = some yi →
      parseLink j l g off m =
        parseChildren l.children (some j.name) 1
          (m.addBody (resolveParent m g) k (off * convertFromUrdfPose j.origin)
            (convertFromUrdfInertial yi)
            (limitVectors j).1 (limitVectors j).2.1
            (limitVectors j).2.2.1 (limitVectors j).2.2.2
            j.name l.name l.visual)) := by
  refine ⟨?_, ?_, ?_, ?_⟩
  · intro j l g off m hj
    exact parseLink_fixed l g off m hj
  · intro m p pl nOff y bn hv
    exact ⟨rfl, rfl, rfl, rfl⟩
  · intro root M h e he
    obtain ⟨t, ht, hprov⟩ := parseChildren_grow root.children none 1
      initialModel M h
    rw [ht] at he
    rcases List.mem_append.mp he with he | he
    · left
      simp only [initialModel, List.mem_singleton] at he
      subst he
      rfl
    · right
      obtain ⟨p, j', l', hp, hn, hk, -⟩ := hprov e he
      obtain ⟨k, hk'⟩ : ∃ k, emittedKind j' = some k := ⟨e.kind, hk⟩
      exact ⟨p, j', l', hp, emittedKind_ne_fixed hk', hn⟩
  · intro j l g off m yi k hk hin
    exact parseLink_emit g off m hk hin

/-- Witness for C3: the fixed-joint step at "jf"/"mid" and the materialised
step at "j1"/"l1", both from the initial model. -/
theorem claimC3_witness :
    parseLink jF lMid none 1 initialModel =
      parseChildren lMid.children none (1 * convertFromUrdfPose jF.origin)
        ((if lMid.inertial.isSome then
            initialModel.mergeFixedBody (resolveParent initialModel none)
              (1 * convertFromUrdfPose jF.origin) (linkInertia lMid)
          else initialModel).addFixedBody (resolveParent initialModel none)
            (1 * convertFromUrdfPose jF.origin) lMid.name lMid.visual) ∧
    parseLink jZ l1 none 1 initialModel =
      parseChildren l1.children (some jZ.name) 1
        (initialModel.addBody (resolveParent initialModel none) .RZ
          (1 * convertFromUrdfPose jZ.origin)
          (convertFromUrdfInertial (inertOf 1))
          (limitVectors jZ).1 (limitVectors jZ).2.1
          (limitVectors jZ).2.2.1 (limitVectors jZ).2.2.2
          jZ.name l1.name l1.visual) :=
  ⟨claimC3.1 jF lMid none 1 initialModel rfl,
   claimC3.2.2.2 jZ l1 none 1 initialModel (inertOf 1) .RZ rfl rfl⟩

/-- Counterexample to C4 as stated: in fixed-root mode the root link matches
neither branch of `parseTree`, so its inertial block (mass 2 here) is
dropped; the model's total mass is 3 while the URDF masses sum to 5. -/
theorem claimC4_counterexample :
    isErr (parseTreeFixed cexMass) = false ∧
    (okModel (parseTreeFixed cexMass)).totalMass = 3 ∧
    linkMassSum cexMass = 5 ∧
    (3 : Scalar) ≠ 5 := by
  have h1 : (okModel (parseTreeFixed cexMass)).inertias =
      [Inertia.zero, convertFromUrdfInertial (inertOf 3)] := rfl
  refine ⟨rfl, ?_, ?_, by norm_num⟩
  · rw [Model.totalMass, h1]
    norm_num [Inertia.zero, convertFromUrdfInertial, inertOf]
  · norm_num [cexMass, lm1, linkMassSum, childrenMassSum, inertOf]

/-- C4 (amended): the total mass of the built model (the sum of
`inertias[i].mass`, masses merged by `mergeFixedBody` included) equals the
sum of the `<inertial>` masses of every link except the root link in
fixed-root mode, whose inertial block is dropped; in explicit-root mode every
link, the root included, contributes exactly once. -/
theorem claimC4 (root : UrdfLink) :
    (∀ M, parseTreeFixed root = .ok M →
      M.totalMass = childrenMassSum root.children) ∧
    (∀ (rootJoint : JointModel) (off : SE3) M,
      parseTreeRootJoint rootJoint off root = .ok M →
      M.totalMass = linkMassSum root) := by
  constructor
  · intro M h
    obtain ⟨hmass, -⟩ := parseChildren_mass root.children none 1 initialModel M
      h (by intro n hn; cases hn) (by simp [initialModel]) rfl
    rw [hmass]
    have h0 : initialModel.totalMass = 0 := by
      simp [Model.totalMass, initialModel, Inertia.zero]
    rw [h0]
    ring
  · intro rootJoint off M h
    simp only [parseTreeRootJoint] at h
    obtain ⟨hmass, -⟩ := parseChildren_mass root.children none 1 _ M h
      (by intro n hn; cases hn)
      (by simp [Model.addBody, initialModel]) rfl
    rw [hmass, linkMassSum_eq root]
    have hm0 : (initialModel.addBody 0 rootJoint off
        (match root.inertial with
          | some yi => convertFromUrdfInertial yi
          | none => Inertia.identity) [] [] [] []
        "root_joint" root.name true).totalMass =
        (match root.inertial with | some yi => yi.mass | none => 0) := by
      rw [totalMass_addBody]
      have h0 : initialModel.totalMass = 0 := by
        simp [Model.totalMass, initialModel, Inertia.zero]
      rw [h0]
      cases root.inertial with
      | none =>
        show 0 + Inertia.identity.mass = 0
        norm_num [Inertia.identity]
      | some yi =>
        show 0 + (convertFromUrdfInertial yi).mass = yi.mass
        have hc : (convertFromUrdfInertial yi).mass = yi.mass := rfl
        rw [hc]
        ring
    rw [hm0]

/-- Witness for C4 (amended) at the mass-2-root, mass-3-child tree, in both
entry modes. -/
theorem claimC4_witness :
    (okModel (parseTreeFixed cexMass)).totalMass =
      childrenMassSum cexMass.children ∧
    (okModel (parseTreeRootJoint .freeFlyer 1 cexMass)).totalMass =
      linkMassSum cexMass :=
  ⟨(claimC4 cexMass).1 _ rfl, (claimC4 cexMass).2 .freeFlyer 1 _ rfl⟩

/-- Counterexample to C5 as stated (an "if and only if"): the tree `cexC5`
contains a link ("lr") attached by a non-fixed joint with no inertial block,
yet compilation does not fail with `MissingInertia` — the unaligned prismatic
joint processed earlier fails first with `UnsupportedJointType`. -/
theorem claimC5_counterexample :
    isMissingInertiaErr (parseTreeFixed cexC5) = false ∧
    isErr (parseTreeFixed cexC5) = true ∧
    childAt cexC5.children 1 = some (jrN, lrN) ∧
    jrN.type = .REVOLUTE ∧
    lrN.inertial = none :=
  ⟨rfl, rfl, rfl, rfl, rfl⟩

/-- C5 (amended): a successful compilation implies every link attached by a
non-fixed joint has an inertial block; a `MissingInertia` failure originates
at some link attached by a non-fixed joint without an inertial block and the
message names that link ("<link> - spatial inertia information missing.");
and whenever such a link exists, compilation fails — with `MissingInertia`
only when no other error preempts it in traversal order.  A link attached by
a FIXED joint without an inertial block never produces this failure. -/
theorem claimC5 :
    (∀ root M, parseTreeFixed root = .ok M →
      ∀ p j' l', rootAt root p = some (j', l') → j'.type ≠ .FIXED →
        l'.inertial.isSome = true) ∧
    (∀ root s, parseTreeFixed root = .error (.missingInertia s) →
      ∃ p j' l', rootAt root p = some (j', l') ∧ j'.type ≠ .FIXED ∧
        l'.inertial = none ∧
        s = l'.name ++ " - spatial inertia information missing.") ∧
    (∀ root (p : List Nat) j' l', rootAt root p = some (j', l') →
      j'.type ≠ .FIXED → l'.inertial = none →
      isErr (parseTreeFixed root) = true) := by
  refine ⟨?_, ?_, ?_⟩
  · intro root M h p j' l' hp hnf
    exact parseChildren_ok_inertial root.children none 1 initialModel M h
      p j' l' hp hnf
  · intro root s h
    exact parseChildren_err_missing root.children none 1 initialModel s h
  · intro root p j' l' hp hnf hin
    cases hr : parseTreeFixed root with
    | ok M =>
      have := parseChildren_ok_inertial root.children none 1 initialModel M hr
        p j' l' hp hnf
      rw [hin] at this
      cases this
    | error e => rfl

/-- Witness for C5 (amended): the successful chain has the inertial block on
its revolute child, and the tree with a missing inertial block on a revolute
child fails to compile. -/
theorem claimC5_witness :
    l1.inertial.isSome = true ∧ isErr (parseTreeFixed cexMissing) = true := by
  constructor
  · exact claimC5.1 sampleChain (okModel (parseTreeFixed sampleChain)) rfl
      [0] jZ l1 rfl (by decide)
  · exact claimC5.2.2 cexMissing [0] jrN lrN rfl (by decide) rfl

/-- The axis classifier matches X, Y, Z only under exact equality with the
canonical basis vectors, and is unaligned otherwise. -/
theorem extractCartesianAxis_iffs (a : Vec3) :
    (extractCartesianAxis a = .AXIS_X ↔ a = ⟨1, 0, 0⟩) ∧
    (extractCartesianAxis a = .AXIS_Y ↔ a = ⟨0, 1, 0⟩) ∧
    (extractCartesianAxis a = .AXIS_Z ↔ a = ⟨0, 0, 1⟩) ∧
    (extractCartesianAxis a = .AXIS_UNALIGNED ↔
      (a ≠ ⟨1, 0, 0⟩ ∧ a ≠ ⟨0, 1, 0⟩ ∧ a ≠ ⟨0, 0, 1⟩)) := by
  obtain ⟨x, y, z⟩ := a
  simp only [extractCartesianAxis, Vec3.mk.injEq, ne_eq]
  split_ifs with h1 h2 h3 <;>
    refine ⟨?_, ?_, ?_, ?_⟩ <;>
    simp_all

/-- Counterexample to C6 as stated: the prismatic joint "jp" has the
unaligned axis (1,1,0), but compilation of `cexC6` does not fail with
`UnsupportedJointType` — its child link has no inertial block, so the
missing-inertia check (urdf.hpp line 137) fails first with
`MissingInertia`. -/
theorem claimC6_counterexample :
    jpU.type = .PRISMATIC ∧
    (jpU.axis ≠ ⟨1, 0, 0⟩ ∧ jpU.axis ≠ ⟨0, 1, 0⟩ ∧ jpU.axis ≠ ⟨0, 0, 1⟩) ∧
    isUnsupportedErr (parseTreeFixed cexC6) = false ∧
    isErr (parseTreeFixed cexC6) = true :=
  ⟨rfl, ⟨by decide, by decide, by decide⟩, rfl, rfl⟩

/-- C6 (amended): a prismatic joint whose axis is not exactly a canonical
basis vector is fatal with `UnsupportedJointType`, provided the child link
carries an inertial block (a missing inertial block triggers the
`MissingInertia` failure first); a prismatic joint about a canonical axis is
emitted via `addBody` with the corresponding prismatic joint model. -/
theorem claimC6 :
    (∀ (j : UrdfJoint) (l : UrdfLink) (g : Option String) (off : SE3)
      (m : Model), j.type = .PRISMATIC →
      j.axis ≠ ⟨1, 0, 0⟩ → j.axis ≠ ⟨0, 1, 0⟩ → j.axis ≠ ⟨0, 0, 1⟩ →
      l.inertial.isSome = true →
      parseLink j l g off m =
        .error (.unsupportedJointType "Only X, Y or Z axis are accepted.")) ∧
    (∀ (j : UrdfJoint) (l : UrdfLink) (g : Option String) (off : SE3)
      (m : Model) (yi : UrdfInertial), j.type = .PRISMATIC →
      l.inertial = some yi →
      ((j.axis = ⟨1, 0, 0⟩ →
        parseLink j l g off m =
          parseChildren l.children (some j.name) 1
            (m.addBody (resolveParent m g) .PX
              (off * convertFromUrdfPose j.origin) (convertFromUrdfInertial yi)
              (limitVectors j).1 (limitVectors j).2.1
              (limitVectors j).2.2.1 (limitVectors j).2.2.2
              j.name l.name l.visual)) ∧
      (j.axis = ⟨0, 1, 0⟩ →
        parseLink j l g off m =
          parseChildren l.children (some j.name) 1
            (m.addBody (resolveParent m g) .PY
              (off * convertFromUrdfPose j.origin) (convertFromUrdfInertial yi)
              (limitVectors j).1 (limitVectors j).2.1
              (limitVectors j).2.2.1 (limitVectors j).2.2.2
              j.name l.name l.visual)) ∧
      (j.axis = ⟨0, 0, 1⟩ →
        parseLink j l g off m =
          parseChildren l.children (some j.name) 1
            (m.addBody (resolveParent m g) .PZ
              (off * convertFromUrdfPose j.origin) (convertFromUrdfInertial yi)
              (limitVectors j).1 (limitVectors j).2.1
              (limitVectors j).2.2.1 (limitVectors j).2.2.2
              j.name l.name l.visual)))) := by
  constructor
  · intro j l g off m hp h1 h2 h3 hin
    have hax : extractCartesianAxis j.axis = .AXIS_UNALIGNED :=
      (extractCartesianAxis_iffs j.axis).2.2.2.mpr ⟨h1, h2, h3⟩
    exact parseLink_prismaticUnaligned g off m hp hax hin
  · intro j l g off m yi hp hin
    refine ⟨?_, ?_, ?_⟩
    · intro hax
      exact parseLink_emit g off m
        (by simp [emittedKind, hp, (extractCartesianAxis_iffs j.axis).1.mpr hax]) hin
    · intro hax
      exact parseLink_emit g off m
        (by simp [emittedKind, hp, (extractCartesianAxis_iffs j.axis).2.1.mpr hax]) hin
    · intro hax
      exact parseLink_emit g off m
        (by simp [emittedKind, hp, (extractCartesianAxis_iffs j.axis).2.2.1.mpr hax]) hin

/-- Witness for C6 (amended): the unaligned prismatic "jp" with an inertial
child is fatal, and the canonical prismatic "jpx" is emitted with the
prismatic-about-X joint model. -/
theorem claimC6_witness :
    parseLink jpU lpIn none 1 initialModel =
      .error (.unsupportedJointType "Only X, Y or Z axis are accepted.") ∧
    parseLink jpX lpIn none 1 initialModel =
      parseChildren lpIn.children (some jpX.name) 1
        (initialModel.addBody (resolveParent initialModel none) .PX
          (1 * convertFromUrdfPose jpX.origin)
          (convertFromUrdfInertial (inertOf 1))
          (limitVectors jpX).1 (limitVectors jpX).2.1
          (limitVectors jpX).2.2.1 (limitVectors jpX).2.2.2
          jpX.name lpIn.name lpIn.visual) :=
  ⟨claimC6.1 jpU lpIn none 1 initialModel rfl (by decide) (by decide)
    (by decide) rfl,
   (claimC6.2 jpX lpIn none 1 initialModel (inertOf 1) rfl rfl).1 (by decide)⟩

/-- C7: the axis classifier maps a raw axis to X, Y or Z only under exact
equality with (1,0,0), (0,1,0), (0,0,1) and to unaligned otherwise; a
REVOLUTE joint with an unaligned axis is emitted as a
revolute-about-arbitrary-axis joint carrying the normalised axis; the
normalised form of (1,1,0) is (√½, √½, 0). -/
theorem claimC7 :
    (∀ a : Vec3,
      (extractCartesianAxis a = .AXIS_X ↔ a = ⟨1, 0, 0⟩) ∧
      (extractCartesianAxis a = .AXIS_Y ↔ a = ⟨0, 1, 0⟩) ∧
      (extractCartesianAxis a = .AXIS_Z ↔ a = ⟨0, 0, 1⟩) ∧
      (extractCartesianAxis a = .AXIS_UNALIGNED ↔
        (a ≠ ⟨1, 0, 0⟩ ∧ a ≠ ⟨0, 1, 0⟩ ∧ a ≠ ⟨0, 0, 1⟩))) ∧
    (∀ (j : UrdfJoint) (l : UrdfLink) (g : Option String) (off : SE3)
      (m : Model) (yi : UrdfInertial), j.type = .REVOLUTE →
      extractCartesianAxis j.axis = .AXIS_UNALIGNED →
      l.inertial = some yi →
      parseLink j l g off m =
        parseChildren l.children (some j.name) 1
          (m.addBody (resolveParent m g)
            (.revoluteUnaligned (normalizeAxis j.axis))
            (off * convertFromUrdfPose j.origin) (convertFromUrdfInertial yi)
            (limitVectors j).1 (limitVectors j).2.1
            (limitVectors j).2.2.1 (limitVectors j).2.2.2
            j.name l.name l.visual)) ∧
    normalizeAxis ⟨1, 1, 0⟩ = (Real.sqrt (1/2), Real.sqrt (1/2), 0) := by
  refine ⟨extractCartesianAxis_iffs, ?_, ?_⟩
  · intro j l g off m yi hr hax hin
    exact parseLink_emit g off m (by simp [emittedKind, hr, hax]) hin
  · have hs : Real.sqrt (1/2) = (Real.sqrt 2)⁻¹ := by
      rw [show (1/2 : ℝ) = 2⁻¹ by norm_num, Real.sqrt_inv]
    have hxyz : normalizeAxis ⟨1, 1, 0⟩ =
        (((1:ℚ):ℝ) / Real.sqrt (((1:ℚ):ℝ)^2 + ((1:ℚ):ℝ)^2 + ((0:ℚ):ℝ)^2),
         ((1:ℚ):ℝ) / Real.sqrt (((1:ℚ):ℝ)^2 + ((1:ℚ):ℝ)^2 + ((0:ℚ):ℝ)^2),
         ((0:ℚ):ℝ) / Real.sqrt (((1:ℚ):ℝ)^2 + ((1:ℚ):ℝ)^2 + ((0:ℚ):ℝ)^2)) :=
      rfl
    rw [hxyz]
    have harg : ((1:ℚ):ℝ)^2 + ((1:ℚ):ℝ)^2 + ((0:ℚ):ℝ)^2 = 2 := by
      push_cast
      norm_num
    rw [harg]
    simp only [Prod.mk.injEq]
    refine ⟨?_, ?_, ?_⟩
    · rw [hs]
      push_cast
      rw [one_div]
    · rw [hs]
      push_cast
      rw [one_div]
    · push_cast
      exact zero_div _

/-- Witness for C7 at the revolute joint "jru" with axis (1,1,0). -/
theorem claimC7_witness :
    parseLink jrU lpIn none 1 initialModel =
      parseChildren lpIn.children (some jrU.name) 1
        (initialModel.addBody (resolveParent initialModel none)
          (.revoluteUnaligned (normalizeAxis jrU.axis))
          (1 * convertFromUrdfPose jrU.origin)
          (convertFromUrdfInertial (inertOf 1))
          (limitVectors jrU).1 (limitVectors jrU).2.1
          (limitVectors jrU).2.2.1 (limitVectors jrU).2.2.2
          jrU.name lpIn.name lpIn.visual) :=
  claimC7.2.1 jrU lpIn none 1 initialModel (inertOf 1) rfl (by decide) rfl

theorem limits_components {j : UrdfJoint} {e : JointEntry}
    (h : (e.maxEffort, e.velocity, e.lowerPosition, e.upperPosition) =
      limitVectors j) :
    (match j.limits with
      | some L => e.maxEffort = [L.effort] ∧ e.velocity = [L.velocity] ∧
          e.lowerPosition = [L.lower] ∧ e.upperPosition = [L.upper]
      | none => e.maxEffort = [] ∧ e.velocity = [] ∧
          e.lowerPosition = [] ∧ e.upperPosition = []) := by
  cases hL : j.limits with
  | none =>
    rw [limitVectors, hL] at h
    simp only [Prod.mk.injEq] at h
    exact ⟨h.1, h.2.1, h.2.2.1, h.2.2.2⟩
  | some L =>
    rw [limitVectors, hL] at h
    simp only [Prod.mk.injEq] at h
    exact ⟨h.1, h.2.1, h.2.2.1, h.2.2.2⟩

/-- C8: every stored joint entry of a built model carries, for the URDF
joint it materialises, length-1 limit vectors (max effort, max velocity,
lower position, upper position) when that joint has a limit block and empty
vectors otherwise; and, under duplicate-free non-reserved joint names, the
entry located by the joint's name carries exactly those vectors. -/
theorem claimC8 :
    (∀ root M, parseTreeFixed root = .ok M →
      ∀ e ∈ M.joints, e.name = "universe" ∨
        ∃ p j' l', rootAt root p = some (j', l') ∧
          (match j'.limits with
            | some L => e.maxEffort = [L.effort] ∧ e.velocity = [L.velocity] ∧
                e.lowerPosition = [L.lower] ∧ e.upperPosition = [L.upper]
            | none => e.maxEffort = [] ∧ e.velocity = [] ∧
                e.lowerPosition = [] ∧ e.upperPosition = [])) ∧
    (∀ root M (p : List Nat) j' l',
      "root_joint" ∉ childrenJointNames root.children →
      "universe" ∉ childrenJointNames root.children →
      (childrenJointNames root.children).Nodup →
      parseTreeFixed root = .ok M →
      rootAt root p = some (j', l') → j'.type ≠ .FIXED →
      ∃ e, M.joints[M.getJointId j'.name]? = some e ∧
        (match j'.limits with
          | some L => e.maxEffort = [L.effort] ∧ e.velocity = [L.velocity] ∧
              e.lowerPosition = [L.lower] ∧ e.upperPosition = [L.upper]
          | none => e.maxEffort = [] ∧ e.velocity = [] ∧
              e.lowerPosition = [] ∧ e.upperPosition = [])) := by
  constructor
  · intro root M h e he
    obtain ⟨t, ht, hprov⟩ := parseChildren_grow root.children none 1
      initialModel M h
    rw [ht] at he
    rcases List.mem_append.mp he with he | he
    · left
      simp only [initialModel, List.mem_singleton] at he
      subst he
      rfl
    · right
      obtain ⟨p, j', l', hp, -, -, hq⟩ := hprov e he
      exact ⟨p, j', l', hp, limits_components hq⟩
  · intro root M p j' l' hnr hnu hnodup h hp hnf
    have hfresh : ∀ e ∈ initialModel.joints,
        e.name ∉ childrenJointNames root.children := by
      intro e he
      simp only [initialModel, List.mem_singleton] at he
      subst he
      exact hnu
    obtain ⟨e, he, hme, -⟩ := parseChildren_resolution root.children none 1
      initialModel M h (by intro n hn; cases hn) hfresh hnodup hnr
      p j' l' hp hnf
    exact ⟨e, he, limits_components hme.2.2⟩

/-- Witness for C8 at the joint "j1" of the two-link chain, whose URDF limit
block is (10, 1, -3, 3). -/
theorem claimC8_witness :
    (entryAt (parseTreeFixed sampleChain)
      ((okModel (parseTreeFixed sampleChain)).getJointId "j1")).maxEffort =
        [10] ∧
    (entryAt (parseTreeFixed sampleChain)
      ((okModel (parseTreeFixed sampleChain)).getJointId "j1")).velocity =
        [1] ∧
    (entryAt (parseTreeFixed sampleChain)
      ((okModel (parseTreeFixed sampleChain)).getJointId "j1")).lowerPosition =
        [-3] ∧
    (entryAt (parseTreeFixed sampleChain)
      ((okModel (parseTreeFixed sampleChain)).getJointId "j1")).upperPosition =
        [3] := by
  obtain ⟨e, he, hq⟩ := claimC8.2 sampleChain
    (okModel (parseTreeFixed sampleChain)) [0] jZ l1
    (by decide) (by decide) (by decide) rfl rfl (by decide)
  have hent : entryAt (parseTreeFixed sampleChain)
      ((okModel (parseTreeFixed sampleChain)).getJointId "j1") = e := by
    rw [entryAt, show ("j1" : String) = jZ.name from rfl, he]
    rfl
  rw [hent]
  exact hq

/-- C9: for every model, data cache, configuration, joint index and frame
selector — and for any behaviour of the external `computeJointJacobians` and
`getJointJacobian` algorithms — `jointJacobian` with `updateKinematics =
true` returns the same matrix as first calling `computeJointJacobians` and
then `getJointJacobian` (the two Python proxies of
expose-jacobian.cpp). -/
theorem claimC9 {Mo Da Qv Mx : Type}
    (computeJointJacobians : Mo → Da → Qv → Da)
    (getJointJacobian : Mo → Da → Nat → ReferenceFrame → Mx → Mx)
    (zeroMatrix : Mo → Mx)
    (model : Mo) (data : Da) (q : Qv) (jointId : Nat) (rf : ReferenceFrame) :
    jacobianProxy computeJointJacobians getJointJacobian zeroMatrix
      model data q jointId rf true =
    getJacobianProxy getJointJacobian zeroMatrix
      model (computeJointJacobians model data q) jointId rf := rfl

/-- C10: in the explicit-root-joint entry mode a root link without an
inertial block does not cause a `MissingInertia` failure — the root body is
emitted through `addBody` with the identity spatial inertia substituted —
whereas for a non-root link attached by a non-fixed joint a missing inertial
block is fatal. -/
theorem claimC10 :
    (∀ (rootJoint : JointModel) (off : SE3) (root : UrdfLink),
      root.inertial = none →
      parseTreeRootJoint rootJoint off root =
        parseChildren root.children none 1
          (initialModel.addBody 0 rootJoint off Inertia.identity
            [] [] [] [] "root_joint" root.name true)) ∧
    (∀ (j : UrdfJoint) (l : UrdfLink) (g : Option String) (off : SE3)
      (m : Model), j.type ≠ .FIXED → l.inertial = none →
      parseLink j l g off m =
        .error (.missingInertia
          (l.name ++ " - spatial inertia information missing."))) := by
  constructor
  · intro rootJoint off root hin
    simp only [parseTreeRootJoint, hin]
  · intro j l g off m hnf hin
    exact parseLink_missingInertia g off m hin hnf

/-- Witness for C10: the two-link chain's root has no inertial block and is
emitted with the identity inertia under a free-flyer root joint; the link
"lr" attached by the revolute "jr" with no inertial block is fatal. -/
theorem claimC10_witness :
    parseTreeRootJoint .freeFlyer 1 sampleChain =
      parseChildren sampleChain.children none 1
        (initialModel.addBody 0 .freeFlyer 1 Inertia.identity
          [] [] [] [] "root_joint" sampleChain.name true) ∧
    parseLink jrN lrN none 1 initialModel =
      .error (.missingInertia
        (lrN.name ++ " - spatial inertia information missing.")) :=
  ⟨claimC10.1 .freeFlyer 1 sampleChain rfl,
   claimC10.2 jrN lrN none 1 initialModel (by decide) rfl⟩

end Pinocchio
